import Mathlib

/-!
# Verification of the GROWI page-tree consistency engine

Shallow embedding of the page model (`packages/app/src/server/models/page.ts`)
and the page service (`PageService`) operating on an in-memory document store.

Conventions of the embedding:
* A MongoDB collection is a `List Page` kept in natural (insertion) order;
  `findOne`/`find` scan in that order, `insertMany` appends.
* Document ids are `Nat`, allocated from `Db.nextId`.
* JavaScript `null`/`undefined` object references become `Option`;
  a BSON field that is serialized from `undefined` is treated as `null`
  (the mongo driver's default serialization), which matters only for the
  loosely-typed third argument of `replaceTargetWithPage`.
* Asynchronous service calls whose implementation lives outside the model and
  service files (`pageOperationService.canOperate`,
  `pageGrantService.isGrantNormalized`) are oracles carried in `Ctx`.
* Fire-and-forget SUB-stage calls (not awaited by the source) are not part of
  the synchronous result of an operation; the embedded functions return the
  caller-visible (MAIN-stage) state.
* Unbounded recursions of the source (ancestor walks, leaf pruning, the
  migration convergence loop) take fuel; the source terminates exactly when
  the fuel-free walk does, and theorems hypothesize sufficient fuel.
-/

/-! ## Grant and status constants (page.ts) -/

def GRANT_PUBLIC : Nat := 1
def GRANT_RESTRICTED : Nat := 2
def GRANT_SPECIFIED : Nat := 3
def GRANT_OWNER : Nat := 4
def GRANT_USER_GROUP : Nat := 5
def STATUS_PUBLISHED : String := "published"
def STATUS_DELETED : String := "deleted"

/-! ## Path utilities

`nodePath.dirname` is the Node.js stdlib function; its behavior is embedded
for the normalized slash-delimited paths the system passes to it. -/

/-- Node.js `path.dirname` for slash-delimited paths without a trailing
slash (all call sites pass normalized paths). -/
def dirnameStr (s : String) : String :=
  let r := s.data.reverse.dropWhile (fun c => c ≠ '/')
  match r with
  | [] => "."
  | ['/'] => "/"
  | _ :: rest => ⟨rest.reverse⟩

/-! Data-level string helpers: the embedding works on `String.data`
character lists throughout, so every operation reduces by computation. -/

def strStartsWith (s pre : String) : Bool := pre.data.isPrefixOf s.data

def strEndsWith (s suf : String) : Bool := suf.data.isSuffixOf s.data

def strDrop (s : String) (n : Nat) : String := ⟨s.data.drop n⟩

def strToLower (s : String) : String := ⟨s.data.map Char.toLower⟩

/-- Modelled from the spec: `isTopLevel(path)` of the Path Utilities —
the test for the root path, absent from src (pagePathUtils of growi/core). -/
def isTopPage (p : String) : Bool := p = "/"

/-- Modelled from the spec: path normalization helper `addTrailingSlash`
(pathUtils of growi/core, absent from src). -/
def addTrailingSlash (p : String) : String :=
  if strEndsWith p "/" then p else p ++ "/"

/-- Modelled from the spec: `ancestorPaths(path)` — the ordered sequence of
paths from root to immediate parent, excluding `path` itself
(`collectAncestorPaths` of growi/core, absent from src). -/
def collectAncestorPaths (path : String) : List String :=
  go path.data.length path
where
  go : Nat → String → List String
  | 0, _ => []
  | n + 1, p =>
    if p = "/" then [] else go n (dirnameStr p) ++ [dirnameStr p]

/-- Modelled from the spec: a page is trashed when its path lies in the
trash namespace (`isTrashPage` of growi/core, absent from src). -/
def isTrashPage (p : String) : Bool := p = "/trash" || strStartsWith p "/trash/"

/-- Modelled from the spec: "reject if ... the path is a protected root" —
a page is movable unless it is the root (`isMovablePage` of growi/core,
absent from src). -/
def isMovablePage (p : String) : Bool := ! isTopPage p

/-- Modelled from the spec: the trash-namespace path rewrite used by soft
delete (`getDeletedPageName`, absent from src): prepend the trash prefix. -/
def getDeletedPageName (p : String) : String := "/trash" ++ p

/-! ## The Page document and the store -/

structure Page where
  id : Nat
  path : String
  parent : Option Nat
  isEmpty : Bool
  grant : Nat
  grantedUsers : List Nat
  grantedGroup : Option Nat
  status : String
  descendantCount : Int
  creator : Option Nat
deriving Repr, DecidableEq

/-- A PageOperation record (operation log); only the fields the embedded
operations write. -/
structure PageOp where
  id : Nat
  actionType : String
  actionStage : String
  fromPath : Option String
  toPath : String
deriving Repr, DecidableEq

/-- The document store: Page collection, PageRedirect collection
(fromPath, toPath) and PageOperation collection. -/
structure Db where
  pages : List Page
  nextId : Nat
  redirects : List (String × String)
  pageOps : List PageOp
deriving Repr, DecidableEq

/-- `findById` / `findOne({ _id: i })`. -/
def findById (db : Db) (i : Nat) : Option Page :=
  db.pages.find? (fun p => p.id = i)

/-- `findOne({ _id: ref })` where `ref` may be null: a null id matches
nothing (every stored id is set). -/
def jsFindByIdOpt (db : Db) (i : Option Nat) : Option Page :=
  match i with
  | none => none
  | some i => findById db i

/-- Replace the page with the given id using `f` (a single-document
`$set`-style update). -/
def updateById (db : Db) (i : Nat) (f : Page → Page) : Db :=
  { db with pages := db.pages.map (fun p => if p.id = i then f p else p) }

/-- `updateMany(filter, update)`. -/
def updateWhere (db : Db) (cond : Page → Bool) (f : Page → Page) : Db :=
  { db with pages := db.pages.map (fun p => if cond p then f p else p) }

/-- `updateOne(filter, update)` over a list: update only the first matching
document. -/
def updateFirstInList (cond : Page → Bool) (f : Page → Page) :
    List Page → List Page
  | [] => []
  | p :: ps =>
    if cond p then f p :: ps else p :: updateFirstInList cond f ps

/-- `updateOne(filter, update)`: update only the first matching document. -/
def updateFirstWhere (db : Db) (cond : Page → Bool) (f : Page → Page) : Db :=
  { db with pages := updateFirstInList cond f db.pages }

/-- `deleteMany(filter)`. -/
def deleteWhere (db : Db) (cond : Page → Bool) : Db :=
  { db with pages := db.pages.filter (fun p => ! cond p) }

/-- Insert one new non-empty page skeleton is done inline by the operations;
this appends an already-built document. -/
def insertPage (db : Db) (p : Page) : Db :=
  { db with pages := db.pages ++ [p], nextId := db.nextId + 1 }

/-! ## Grant visibility condition (`generateGrantCondition`, page.ts) with
the default flags (`showAnyoneKnowsLink` etc. all false). -/

def generateGrantCondition (user : Option Nat) (userGroups : List Nat)
    (p : Page) : Bool :=
  (p.grant = GRANT_PUBLIC)
  || (match user with
      | some u =>
        (p.grant = GRANT_SPECIFIED && p.grantedUsers.contains u)
        || (p.grant = GRANT_OWNER && p.grantedUsers.contains u)
      | none => false)
  || (!userGroups.isEmpty && p.grant = GRANT_USER_GROUP
      && (match p.grantedGroup with
          | some g => userGroups.contains g
          | none => false))

/-- `addConditionAsMigrated` (PageQueryBuilder): `parent != null` or root. -/
def isMigratedCond (p : Page) : Bool := p.parent ≠ none || p.path = "/"

/-- `addConditionToFilterByApplicableAncestors(pathsToFilter)`
(PageQueryBuilder, page.ts). -/
def applicableAncestorsCond (pathsToFilter : List String) (p : Page) : Bool :=
  (p.path = "/")
  || (pathsToFilter.contains p.path && p.grant = GRANT_PUBLIC && p.status = STATUS_PUBLISHED)
  || (pathsToFilter.contains p.path && p.parent ≠ none && p.status = STATUS_PUBLISHED)
  || (!pathsToFilter.contains p.path && p.status = STATUS_PUBLISHED)

/-- Stable insertion for the descending-path sort. -/
def insertByDescPath (x : Page) : List Page → List Page
  | [] => [x]
  | y :: ys => if y.path < x.path then x :: y :: ys else y :: insertByDescPath x ys

/-- Sort pages by descending path (`addConditionToSortPagesByDescPath`);
MongoDB sorts stably by the bytewise string order, embedded as a stable
descending insertion sort over the lexicographic order. -/
def sortPagesByDescPath : List Page → List Page
  | [] => []
  | p :: ps => insertByDescPath p (sortPagesByDescPath ps)

/-! ## Tree Maintenance Engine primitives (page.ts statics) -/

/-- Deduplicate keeping the first occurrence (JS `new Set(...)` iteration
order). -/
def dedupeKeepFirst {α : Type} [DecidableEq α] : List α → List α
  | [] => []
  | a :: l => a :: (dedupeKeepFirst l).filter (fun x => x ≠ a)

/-- `createEmptyPage(path, parent, creator, descendantCount = 0)`:
throws when `parent == null`, otherwise inserts a placeholder node. -/
def createEmptyPage (db : Db) (path : String) (parent : Option Nat)
    (creator : Option Nat) (descendantCount : Int) :
    Except (String × Db) (Db × Page) :=
  match parent with
  | none => .error ("parent must not be null", db)
  | some pid =>
    let pg : Page :=
      { id := db.nextId, path := path, parent := some pid, isEmpty := true
        grant := GRANT_PUBLIC, grantedUsers := [], grantedGroup := none
        status := STATUS_PUBLISHED, descendantCount := descendantCount
        creator := creator }
    .ok (insertPage db pg, pg)

/-- `insertMany` of empty-page skeletons `{ path, isEmpty: true, creator }`
(schema defaults: `parent = null`, `grant = GRANT_PUBLIC`,
`status = published`, `descendantCount = 0`); returns the inserted pages. -/
def insertEmptyPagesAt (db : Db) (paths : List String) (creator : Option Nat) :
    Db × List Page :=
  match paths with
  | [] => (db, [])
  | q :: rest =>
    let pg : Page :=
      { id := db.nextId, path := q, parent := none, isEmpty := true
        grant := GRANT_PUBLIC, grantedUsers := [], grantedGroup := none
        status := STATUS_PUBLISHED, descendantCount := 0, creator := creator }
    let (db', inserted) := insertEmptyPagesAt (insertPage db pg) rest creator
    (db', pg :: inserted)

/-- `createEmptyPagesByPaths(paths, user, onlyMigratedAsExistingPages, filter)`
(page.ts): aggregate the existing pages at `paths` (optionally restricted to
migrated pages, an extra filter, and the viewer grant condition), then insert
empty pages at every path not represented. -/
def createEmptyPagesByPaths (db : Db) (paths : List String) (user : Option Nat)
    (userGroups : List Nat) (onlyMigratedAsExistingPages : Bool)
    (extraFilter : Option (Page → Bool)) : Db :=
  let existingPages := db.pages.filter (fun p =>
    paths.contains p.path
    && (!onlyMigratedAsExistingPages || (p.parent ≠ none || p.path = "/"))
    && (match extraFilter with | some f => f p | none => true)
    && generateGrantCondition user userGroups p)
  let existingPagePaths := existingPages.map (fun p => p.path)
  let notExistingPagePaths := paths.filter (fun q => !existingPagePaths.contains q)
  (insertEmptyPagesAt db notExistingPagePaths user).1

/-- The loosely-typed third argument of `replaceTargetWithPage`: the call
sites pass a page document, `null`, or the literal `true`. -/
inductive JsPageArg where
  | jsNull
  | jsPage (id : Nat)
  | jsTrue
deriving Repr, DecidableEq

/-- JavaScript `x == null`. -/
def jsArgIsNull : JsPageArg → Bool
  | .jsNull => true
  | _ => false

/-- JavaScript `x._id` (the `_id` of the literal `true` is `undefined`). -/
def jsArgId : JsPageArg → Option Nat
  | .jsPage i => some i
  | _ => none

/-- `replaceTargetWithPage(exPage, operator, pageToReplaceWith?,
deleteExPageIfEmpty = false)` (page.ts): find the parent, create an empty
page at the path only when no replacement is given, re-point the children of
`exPage` to the new target, optionally delete `exPage` if empty.
A filter or update value built from an `undefined` id is serialized as null. -/
def replaceTargetWithPage (db : Db) (exPage : Page) (operator : Option Nat)
    (pageToReplaceWith : JsPageArg) (deleteExPageIfEmpty : Bool) :
    Except (String × Db) (Db × Option Page) :=
  match jsFindByIdOpt db exPage.parent with
  | none => .error ("parent to update does not exist. Prepare parent first.", db)
  | some parent =>
    let step : Except (String × Db) (Db × Option Nat) :=
      if jsArgIsNull pageToReplaceWith then
        match createEmptyPage db exPage.path (some parent.id) operator
            exPage.descendantCount with
        | .error e => .error e
        | .ok (db1, pg) => .ok (db1, some pg.id)
      else .ok (db, jsArgId pageToReplaceWith)
    match step with
    | .error e => .error e
    | .ok (db1, newTargetId) =>
      let childIds := (db1.pages.filter
        (fun p => p.parent = some exPage.id)).map (fun p => p.id)
      let db2 := match newTargetId with
        | some i => updateById db1 i (fun p => { p with parent := some parent.id })
        | none => db1
      let db3 := updateWhere db2 (fun p => childIds.contains p.id)
        (fun p => { p with parent := newTargetId })
      let db4 :=
        if deleteExPageIfEmpty && exPage.isEmpty then
          deleteWhere db3 (fun p => p.id = exPage.id)
        else db3
      .ok (db4, jsFindByIdOpt db4 newTargetId)

/-- `getParentAndFillAncestors(path, user)` (page.ts): return the first
migrated page at the parent path if any; otherwise create missing empty
ancestors, re-link the ancestor chain (each non-root ancestor's `parent` set
to the earliest page at its parent path, by descending-path sort), and return
the page now at the parent path.  A missing map entry is a JavaScript
`TypeError` at the call site, embedded as an error. -/
def getParentAndFillAncestors (db : Db) (path : String) (user : Option Nat)
    (userGroups : List Nat) : Except (String × Db) (Db × Page) :=
  let parentPath := dirnameStr path
  let pagesCanBeParent := db.pages.filter
    (fun p => p.path = parentPath && isMigratedCond p)
  match pagesCanBeParent with
  | pg :: _ => .ok (db, pg)
  | [] =>
    let ancestorPaths := collectAncestorPaths path
    let db1 := createEmptyPagesByPaths db ancestorPaths user userGroups true none
    let ancestors := sortPagesByDescPath (db1.pages.filter (fun p =>
      applicableAncestorsCond ancestorPaths p && ancestorPaths.contains p.path))
    let ancestorsMap : String → Option Page :=
      fun q => ancestors.find? (fun p => p.path = q)
    let nonRootAncestors := ancestors.filter (fun p => !isTopPage p.path)
    let opsOrFail : Except (String × Db) (List (Nat × Nat)) :=
      nonRootAncestors.foldr (fun p acc =>
        match acc, ancestorsMap (dirnameStr p.path) with
        | .error e, _ => .error e
        | .ok l, some anc => .ok ((p.id, anc.id) :: l)
        | .ok _, none => .error ("TypeError: ancestor page is undefined", db1)) (.ok [])
    match opsOrFail with
    | .error e => .error e
    | .ok ops =>
      let db2 := ops.foldl
        (fun d op => updateById d op.1 (fun p => { p with parent := some op.2 })) db1
      match ancestorsMap parentPath with
      | some createdParent => .ok (db2, createdParent)
      | none => .error ("TypeError: createdParent is undefined", db2)

/-! ### `recountDescendantCount(id)` (page.ts): the aggregation pipeline
`$match(parent: id)` - `$project` - `$group(by parent)` - `$set`. -/

structure RecountProjection where
  parent : Option Nat
  isEmpty : Bool
  descendantCount : Int
deriving Repr, DecidableEq

structure RecountGroup where
  key : Option Nat
  sumOfDescendantCount : Int
  sumOfDocsCount : Int
  descendantCount : Int
deriving Repr, DecidableEq

def recountMatchStage (db : Db) (id : Nat) : List Page :=
  db.pages.filter (fun p => p.parent = some id)

def recountProjectStage (ps : List Page) : List RecountProjection :=
  ps.map (fun p =>
    { parent := p.parent, isEmpty := p.isEmpty
      descendantCount := p.descendantCount })

def recountGroupStage (docs : List RecountProjection) : List RecountGroup :=
  (dedupeKeepFirst (docs.map (fun d => d.parent))).map (fun k =>
    let grp := docs.filter (fun d => d.parent = k)
    { key := k
      sumOfDescendantCount := (grp.map (fun d => d.descendantCount)).sum
      sumOfDocsCount := ((grp.filter (fun d => !d.isEmpty)).length : Int)
      descendantCount := 0 })

def recountSetStage (gs : List RecountGroup) : List RecountGroup :=
  gs.map (fun g =>
    { g with descendantCount := g.sumOfDescendantCount + g.sumOfDocsCount })

def recountDescendantCount (db : Db) (id : Nat) : Int :=
  let res := recountSetStage (recountGroupStage (recountProjectStage
    (recountMatchStage db id)))
  match res with
  | [] => 0
  | g :: _ => g.descendantCount

/-- `incrementDescendantCountOfPageIds(pageIds, increment)` (page.ts). -/
def incrementDescendantCountOfPageIds (db : Db) (pageIds : List Nat)
    (increment : Int) : Db :=
  updateWhere db (fun p => pageIds.contains p.id)
    (fun p => { p with descendantCount := p.descendantCount + increment })

/-- The parent walk of `findAncestorsUsingParentRecursively`; the source
recursion terminates exactly when the chain reaches a null or missing parent,
so the walk is fueled and callers pass one more than the store size. -/
def findAncestorsWalk (db : Db) : Nat → Page → List Page → List Page
  | 0, _, ancestors => ancestors
  | fuel + 1, target, ancestors =>
    match jsFindByIdOpt db target.parent with
    | none => ancestors
    | some parent => findAncestorsWalk db fuel parent (ancestors ++ [parent])

/-- `findAncestorsUsingParentRecursively(pageId, shouldIncludeTarget)`
(page.ts): throws when the target is not found. -/
def findAncestorsUsingParentRecursively (db : Db) (pageId : Option Nat)
    (shouldIncludeTarget : Bool) : Except (String × Db) (List Page) :=
  match jsFindByIdOpt db pageId with
  | none => .error ("Target not found", db)
  | some target =>
    .ok (findAncestorsWalk db (db.pages.length + 1) target
      (if shouldIncludeTarget then [target] else []))

/-- `updateDescendantCountOfAncestors(pageId, inc, shouldIncludeTarget)`
(PageService): apply `inc` to every ancestor's cached counter. -/
def updateDescendantCountOfAncestors (db : Db) (pageId : Option Nat)
    (inc : Int) (shouldIncludeTarget : Bool) : Except (String × Db) Db :=
  match findAncestorsUsingParentRecursively db pageId shouldIncludeTarget with
  | .error e => .error e
  | .ok ancestors =>
    .ok (incrementDescendantCountOfPageIds db (ancestors.map (fun p => p.id)) inc)

/-- `takeOffFromTree(pageId)` (page.ts): `parent := null`. -/
def takeOffFromTree (db : Db) (pageId : Nat) : Db :=
  updateById db pageId (fun p => { p with parent := none })

/-- `removeEmptyPages(pageIdsToNotRemove, paths)` (page.ts). -/
def removeEmptyPages (db : Db) (pageIdsToNotRemove : List Nat)
    (paths : List String) : Db :=
  deleteWhere db (fun p =>
    !pageIdsToNotRemove.contains p.id && paths.contains p.path && p.isEmpty)

/-- `exists({ _id: { $ne: childPage?._id }, parent: page._id })` in
`removeLeafEmptyPagesRecursively`: when `childPage` is null the `$ne`
condition is against null and every stored id satisfies it. -/
def existsChildOtherThan (db : Db) (childId : Option Nat) (pid : Nat) : Bool :=
  db.pages.any (fun q =>
    (match childId with | some c => q.id ≠ c | none => true)
    && q.parent = some pid)

/-- The upward walk `generatePageIdsToRemove(childPage, page, pageIds)` of
`removeLeafEmptyPagesRecursively` (page.ts), fueled. -/
def generatePageIdsToRemove (db : Db) :
    Nat → Option Nat → Page → List Nat → List Nat
  | 0, _, _, pageIds => pageIds
  | fuel + 1, childId, page, pageIds =>
    if !page.isEmpty then pageIds
    else if existsChildOtherThan db childId page.id then pageIds
    else
      let pageIds := pageIds ++ [page.id]
      match jsFindByIdOpt db page.parent with
      | none => pageIds
      | some nextPage => generatePageIdsToRemove db fuel (some page.id) nextPage pageIds

/-- `removeLeafEmptyPagesRecursively(pageId)` (page.ts). -/
def removeLeafEmptyPagesRecursively (db : Db) (pageId : Option Nat) : Db :=
  match jsFindByIdOpt db pageId with
  | none => db
  | some initialPage =>
    if !initialPage.isEmpty then db
    else
      let pageIdsToRemove :=
        generatePageIdsToRemove db (db.pages.length + 1) none initialPage []
      deleteWhere db (fun p => pageIdsToRemove.contains p.id)

/-! ## External collaborators as oracles

`configManager`, `pageOperationService.canOperate` and
`pageGrantService.isGrantNormalized` live outside the embedded files; they
are carried as oracle functions, and `UserGroupRelation` lookups become the
`userGroupsOf` map. -/

structure Ctx where
  isV5Compatible : Bool
  /-- `pageOperationService.canOperate(isRecursively, fromPath, toPath)`. -/
  canOperate : Bool → Option String → String → Bool
  /-- `pageGrantService.isGrantNormalized(user, path, grant, grantedUserIds,
  grantedGroupId, shouldCheckDescendants)`. -/
  isGrantNormalized : Nat → String → Option Nat → List Nat → Option Nat → Bool → Bool
  /-- `UserGroupRelation.findAllUserGroupIdsRelatedToUser(user)`. -/
  userGroupsOf : Nat → List Nat
  /-- `addConditionToFilteringByViewerToEdit` (absent from src): the
  pages a viewer may edit, used by the legacy descendant streams. -/
  canEditCond : Option Nat → Page → Bool

/-- Modelled from the spec: `applyScope` (obsolete-page.js, absent from src)
applies the requested access-control scope to a page — the grant (absent
grant defaults to PUBLIC), the granted users for owner-scoped grants and the
granted group for group-scoped grants. -/
def applyScope (p : Page) (user : Nat) (grant : Option Nat)
    (grantUserGroupId : Option Nat) : Page :=
  let g := grant.getD GRANT_PUBLIC
  { p with
    grant := g
    grantedUsers := if g = GRANT_PUBLIC || g = GRANT_USER_GROUP then [] else [user]
    grantedGroup := if g = GRANT_USER_GROUP then grantUserGroupId else none }

/-- Modelled from the spec: the legacy v4 `createV4` (obsolete-page.js,
absent from src) — a page of the flat legacy representation is inserted with
the requested scope and is not attached to the tree (`parent` stays null). -/
def createV4 (db : Db) (path : String) (user : Nat) (optGrant : Option Nat)
    (grantUserGroupId : Option Nat) : Except (String × Db) (Db × Page) :=
  if db.pages.any (fun p => p.path = path && !p.isEmpty) then
    .error ("Cannot create new page to existed path", db)
  else
    let base : Page :=
      { id := db.nextId, path := path, parent := none, isEmpty := false
        grant := GRANT_PUBLIC, grantedUsers := [], grantedGroup := none
        status := STATUS_PUBLISHED, descendantCount := 0, creator := some user }
    let pg := applyScope base user optGrant grantUserGroupId
    .ok (insertPage db pg, pg)

/-- `schema.statics.create(path, body, user, options)` (page.ts): the v5
create.  The revision/body handling is content, out of scope of the tree
structure; document ids are allocated at insertion time. -/
def create (ctx : Ctx) (db : Db) (path : String) (user : Nat)
    (optGrant : Option Nat) (grantUserGroupId : Option Nat) :
    Except (String × Db) (Db × Page) :=
  if !ctx.isV5Compatible then createV4 db path user optGrant grantUserGroupId
  else if !ctx.canOperate false none path then
    .error ("Cannot operate create to this path right now.", db)
  else if db.pages.any (fun p => p.path = path && !p.isEmpty) then
    .error ("Cannot create new page to existed path", db)
  else
    -- force public
    let grant := if isTopPage path then some GRANT_PUBLIC else optGrant
    -- find an existing empty page
    let emptyPage := db.pages.find? (fun p => p.path = path && p.isEmpty)
    -- UserGroup & Owner validation
    let grantCheck : Except (String × Db) Unit :=
      if grant ≠ some GRANT_RESTRICTED then
        let shouldCheckDescendants := emptyPage.isSome
        let newGrantedUserIds :=
          if grant = some GRANT_OWNER then [user] else []
        if !ctx.isGrantNormalized user path grant newGrantedUserIds
            grantUserGroupId shouldCheckDescendants then
          .error ("The selected grant or grantedGroup is not assignable to this page.", db)
        else .ok ()
      else .ok ()
    match grantCheck with
    | .error e => .error e
    | .ok () =>
      -- update empty page if exists, if not, create a new page
      let reuse : Option (Page × Int) :=
        match emptyPage with
        | some ep =>
          if grant ≠ some GRANT_RESTRICTED then
            some (ep, recountDescendantCount db ep.id)
          else none
        | none => none
      -- set parent to null when GRANT_RESTRICTED (or top page)
      let parentStep : Except (String × Db) (Db × Option Nat) :=
        if isTopPage path || grant = some GRANT_RESTRICTED then .ok (db, none)
        else
          match getParentAndFillAncestors db path (some user)
              (ctx.userGroupsOf user) with
          | .error e => .error e
          | .ok (db1, parentPage) => .ok (db1, some parentPage.id)
      match parentStep with
      | .error e => .error e
      | .ok (db1, newParent) =>
        let setFields : Page → Page := fun p =>
          applyScope
            { p with
              path := path, creator := some user, status := STATUS_PUBLISHED
              parent := newParent
              isEmpty := (match reuse with | some _ => false | none => p.isEmpty)
              descendantCount :=
                (match reuse with | some (_, c) => c | none => p.descendantCount) }
            user grant grantUserGroupId
        let (db2, savedPage) :=
          match reuse with
          | some (ep, _) =>
            (updateById db1 ep.id setFields, setFields ep)
          | none =>
            let base : Page :=
              { id := db1.nextId, path := path, parent := newParent
                isEmpty := false, grant := GRANT_PUBLIC, grantedUsers := []
                grantedGroup := none, status := STATUS_PUBLISHED
                descendantCount := 0, creator := some user }
            let pg := setFields base
            (insertPage db1 pg, pg)
        -- delete PageRedirect if exists
        let db3 := { db2 with redirects := db2.redirects.filter (fun r => r.1 ≠ path) }
        -- update descendantCount of ancestors
        match updateDescendantCountOfAncestors db3 (some savedPage.id) 1 false with
        | .error e => .error e
        | .ok db4 => .ok (db4, savedPage)

/-- Modelled from the spec: the legacy v4 `updatePageV4` (obsolete-page.js,
absent from src) — re-applies the requested scope on the page and saves the
new content; no tree maintenance (`parent` untouched). -/
def updatePageV4 (db : Db) (pageData : Page) (user : Nat)
    (optGrant : Option Nat) (optGrantUserGroupId : Option Nat) :
    Except (String × Db) (Db × Page) :=
  let grant := optGrant.getD pageData.grant
  let grantUserGroupId :=
    match optGrantUserGroupId with
    | some g => some g
    | none => pageData.grantedGroup
  let saved := applyScope pageData user (some grant) grantUserGroupId
  .ok (updateById db pageData.id
    (fun p => applyScope p user (some grant) grantUserGroupId), saved)

/-- `shouldUseUpdatePageV4(grant, isV5Compatible, isOnTree)` (page.ts). -/
def shouldUseUpdatePageV4 (grant : Nat) (isV5Compatible isOnTree : Bool) : Bool :=
  let isRestricted := grant = GRANT_RESTRICTED
  !isRestricted && (!isV5Compatible || !isOnTree)

/-- `schema.statics.updatePage(pageData, body, previousBody, user, options)`
(page.ts): the v5 update; revision/body handling is out of scope. -/
def updatePage (ctx : Ctx) (db : Db) (pageData : Page) (user : Nat)
    (optGrant : Option Nat) (optGrantUserGroupId : Option Nat) :
    Except (String × Db) (Db × Page) :=
  let wasOnTree := pageData.parent ≠ none || isTopPage pageData.path
  let exParent := pageData.parent
  if shouldUseUpdatePageV4 pageData.grant ctx.isV5Compatible wasOnTree then
    updatePageV4 db pageData user optGrant optGrantUserGroupId
  else
    let grant := optGrant.getD pageData.grant
    let grantUserGroupId :=
      match optGrantUserGroupId with
      | some g => some g
      | none => pageData.grantedGroup
    let grantedUserIds :=
      if pageData.grantedUsers.isEmpty then [user] else pageData.grantedUsers
    let shouldBeOnTree := grant ≠ GRANT_RESTRICTED
    let isChildrenExist := db.pages.any (fun p =>
      strStartsWith p.path (addTrailingSlash pageData.path) && p.parent ≠ none)
    let branch : Except (String × Db) (Db × Option Nat × Int) :=
      if shouldBeOnTree then
        if !ctx.isGrantNormalized user pageData.path (some grant) grantedUserIds
            grantUserGroupId true then
          .error ("The selected grant or grantedGroup is not assignable to this page.", db)
        else if !wasOnTree then
          match getParentAndFillAncestors db pageData.path (some user)
              (ctx.userGroupsOf user) with
          | .error e => .error e
          | .ok (db1, newParent) =>
            .ok (db1, some newParent.id, pageData.descendantCount)
        else .ok (db, pageData.parent, pageData.descendantCount)
      else
        let childStep : Except (String × Db) Db :=
          if wasOnTree && isChildrenExist then
            match createEmptyPage db pageData.path pageData.parent (some user)
                pageData.descendantCount with
            | .error e => .error e
            | .ok (db1, newParentForChildren) =>
              .ok (updateWhere db1 (fun p => p.parent = some pageData.id)
                (fun p => { p with parent := some newParentForChildren.id }))
          else .ok db
        match childStep with
        | .error e => .error e
        | .ok db1 => .ok (db1, none, 0)
    match branch with
    | .error e => .error e
    | .ok (db1, newParent, newDescCount) =>
      let setFields : Page → Page := fun p =>
        applyScope
          { p with parent := newParent, descendantCount := newDescCount }
          user (some grant) grantUserGroupId
      let savedPage := setFields pageData
      let db2 := updateById db1 pageData.id setFields
      -- update ex children's parent
      let db3 :=
        if !wasOnTree && shouldBeOnTree then
          let emptyPageAtSamePath := db2.pages.find? (fun p =>
            p.path = pageData.path && p.isEmpty)
          let db3a :=
            match emptyPageAtSamePath with
            | some ep =>
              if isChildrenExist then
                updateWhere db2 (fun p => p.parent = some ep.id)
                  (fun p => { p with parent := some savedPage.id })
              else db2
            | none => db2
          -- findOneAndDelete({ path, isEmpty: true })
          match db3a.pages.find? (fun p => p.path = pageData.path && p.isEmpty) with
          | some ep => deleteWhere db3a (fun p => p.id = ep.id)
          | none => db3a
        else db2
      -- sub operation 1: update descendantCount
      let countStep : Except (String × Db) Db :=
        if !wasOnTree && shouldBeOnTree then
          match updateDescendantCountOfAncestors db3 (some pageData.id) 1 false with
          | .error e => .error e
          | .ok db4 =>
            let newDescendantCount := recountDescendantCount db4 pageData.id
            .ok (updateById db4 pageData.id
              (fun p => { p with descendantCount := newDescendantCount }))
        else if wasOnTree && !shouldBeOnTree then
          if savedPage.grant = GRANT_RESTRICTED then
            updateDescendantCountOfAncestors db3 exParent (-1) true
          else .ok db3
        else .ok db3
      match countStep with
      | .error e => .error e
      | .ok db4 =>
        -- sub operation 2: delete unnecessary empty pages
        let db5 :=
          if wasOnTree && !isChildrenExist then
            removeLeafEmptyPagesRecursively db4 exParent
          else db4
        .ok (db5, savedPage)

/-! ## PageService: rename, duplicate, delete (part_003) -/

def LIMIT_FOR_MULTIPLE_PAGE_OP : Nat := 20

structure RenameOptions where
  isMoveMode : Bool
  createRedirectPage : Bool
  updateMetadata : Bool
  isRecursively : Bool
deriving Repr, DecidableEq

/-- `shouldUseV4Process(page)` (PageService). -/
def shouldUseV4Process (ctx : Ctx) (page : Page) : Bool :=
  let isTrashPg := page.status = STATUS_DELETED
  let isPageMigrated := page.parent ≠ none
  let isRoot := isTopPage page.path
  let isPageRestricted := page.grant = GRANT_RESTRICTED
  !isRoot && (!ctx.isV5Compatible || !isPageMigrated || isTrashPg || isPageRestricted)

/-- Case-insensitive `startsWith` (a RegExp built with the `i` flag). -/
def ciStartsWith (s pre : String) : Bool :=
  strStartsWith (strToLower s) (strToLower pre)

/-- `s.replace(new RegExp('^' + escape(pre), 'i'), repl)`. -/
def ciReplaceStart (s pre repl : String) : String :=
  if ciStartsWith s pre then repl ++ strDrop s pre.data.length else s

/-- `isRenamingToUnderTarget(fromPath, toPath)` (PageService). -/
def isRenamingToUnderTarget (fromPath toPath : String) : Bool :=
  ciStartsWith toPath (addTrailingSlash fromPath)

/-- Modelled from the spec: `canMoveByPath` (pagePathUtils, absent from
src) — "renaming into a non-movable path" is rejected; a page cannot be
moved into its own subtree. -/
def canMoveByPath (fromPath toPath : String) : Bool :=
  !(strStartsWith toPath (addTrailingSlash fromPath))

/-- The local walk `collectAncestorPathsUntilFromPath` of
`getParentAndforceCreateEmptyTree`; the source recursion terminates only
when the walk reaches `fromPath`, so it is fueled. -/
def collectAncestorPathsUntil (fromPath : String) :
    Nat → String → List String → List String
  | 0, _, acc => acc
  | n + 1, path, acc =>
    if path = fromPath then acc
    else collectAncestorPathsUntil fromPath n (dirnameStr path) (acc ++ [dirnameStr path])

/-- `getParentAndforceCreateEmptyTree(originalPage, toPath)` (PageService):
insert the empty ancestor chain between `fromPath` and `toPath` and link it
onto the original parent.  A `$set` whose value comes from an undefined map
entry strips the key (no parent update); the misspelled `descedantCount`
field of the source update is dropped by the schema. -/
def getParentAndforceCreateEmptyTree (db : Db) (originalPage : Page)
    (toPath : String) : Except (String × Db) (Db × Page) :=
  let fromPath := originalPage.path
  let newParentPath := dirnameStr toPath
  let pathsToInsert :=
    collectAncestorPathsUntil fromPath (toPath.data.length + 1) toPath []
  match jsFindByIdOpt db originalPage.parent with
  | none => .error ("Original parent not found", db)
  | some originalParent =>
    let (db1, insertedPages) := insertEmptyPagesAt db pathsToInsert none
    let pages := insertedPages ++ [originalParent]
    let amap : String → Option Page :=
      fun q => pages.reverse.find? (fun p => p.path = q)
    let db2 := insertedPages.foldl (fun d pg =>
      match amap (dirnameStr pg.path) with
      | some anc => updateById d pg.id (fun p => { p with parent := some anc.id })
      | none => d) db1
    match amap newParentPath with
    | some newParent => .ok (db2, newParent)
    | none => .error ("TypeError: newParent is undefined", db2)

/-- The net effect of `renameDescendantsV4(pages, ...)` (PageService): the
paths of the given pages are rewritten by the case-insensitive prefix
substitution; redirects are inserted for non-empty pages, duplicate
`fromPath` inserts being swallowed (code 11000). -/
def renameDescendantsV4Effect (db : Db) (pages : List Page)
    (oldPre newPre : String) (createRedirectPage : Bool) : Db :=
  let db1 := pages.foldl (fun d pg =>
    updateById d pg.id (fun p => { p with path := ciReplaceStart p.path oldPre newPre })) db
  pages.foldl (fun d pg =>
    if !pg.isEmpty && createRedirectPage
        && !(d.redirects.any (fun r => r.1 = pg.path)) then
      { d with redirects := d.redirects ++ [(pg.path, ciReplaceStart pg.path oldPre newPre)] }
    else d) db1

/-- The net effect of `renameDescendantsWithStreamV4` (PageService): all
not-yet-migrated descendants the viewer can edit are renamed by prefix
substitution, batching being irrelevant to the final store. -/
def renameDescendantsWithStreamV4Effect (ctx : Ctx) (db : Db)
    (targetPage : Page) (newPagePath : String) (user : Nat)
    (createRedirectPage : Bool) : Db :=
  let pages := db.pages.filter (fun p =>
    p.parent = none && strStartsWith p.path (addTrailingSlash targetPage.path)
    && ctx.canEditCond (some user) p)
  renameDescendantsV4Effect db pages targetPage.path newPagePath createRedirectPage

/-- `renamePageV4(page, newPagePath, user, options)` (PageService);
`PageRedirect.create` is not guarded here, so a duplicate redirect is an
error. -/
def renamePageV4 (ctx : Ctx) (db : Db) (page : Page) (newPagePath : String)
    (user : Nat) (opts : RenameOptions) : Except (String × Db) (Db × Page) :=
  let db1 :=
    if opts.isRecursively then
      renameDescendantsWithStreamV4Effect ctx db page newPagePath user
        opts.createRedirectPage
    else db
  let f : Page → Page := fun p => { p with path := newPagePath }
  let db2 := updateById db1 page.id f
  let renamedPage := f page
  if opts.createRedirectPage then
    if db2.redirects.any (fun r => r.1 = page.path) then
      .error ("E11000 duplicate key error", db2)
    else
      .ok ({ db2 with redirects := db2.redirects ++ [(page.path, newPagePath)] },
        renamedPage)
  else .ok (db2, renamedPage)

/-- `renameMainOperation(page, newPagePath, user, options, pageOpId)`
(PageService): grant validation, detach, re-parent, path update, redirect,
operation-log stage change; the SUB stage is fire-and-forget. -/
def renameMainOperation (ctx : Ctx) (db : Db) (page : Page)
    (newPagePath : String) (user : Nat) (opts : RenameOptions)
    (pageOpId : Nat) : Except (String × Db) (Db × Page) :=
  -- use the parent's grant when target page is an empty page
  let grantSrc : Except (String × Db) (Nat × List Nat × Option Nat) :=
    if page.isEmpty then
      match jsFindByIdOpt db page.parent with
      | none => .error ("parent not found", db)
      | some parent => .ok (parent.grant, parent.grantedUsers, parent.grantedGroup)
    else .ok (page.grant, page.grantedUsers, page.grantedGroup)
  match grantSrc with
  | .error e => .error e
  | .ok (grant, grantedUserIds, grantedGroupId) =>
    if grant ≠ GRANT_RESTRICTED
        && !ctx.isGrantNormalized user newPagePath (some grant) grantedUserIds
            grantedGroupId false then
      .error ("This page cannot be renamed since the selected grant or grantedGroup is not assignable to this page.", db)
    else
      -- 1. take target off from tree
      let db1 := takeOffFromTree db page.id
      -- 2. find new parent
      let parentStep : Except (String × Db) (Db × Page) :=
        if isRenamingToUnderTarget page.path newPagePath then
          getParentAndforceCreateEmptyTree db1 page newPagePath
        else
          getParentAndFillAncestors db1 newPagePath (some user) (ctx.userGroupsOf user)
      match parentStep with
      | .error e => .error e
      | .ok (db2, newParent) =>
        -- 3. put back target page to tree
        let f : Page → Page := fun p =>
          { p with path := newPagePath, parent := some newParent.id }
        let db3 := updateById db2 page.id f
        let renamedPage := f page
        let redirectStep : Except (String × Db) Db :=
          if opts.createRedirectPage then
            if db3.redirects.any (fun r => r.1 = page.path) then
              .error ("E11000 duplicate key error", db3)
            else .ok { db3 with redirects := db3.redirects ++ [(page.path, newPagePath)] }
          else .ok db3
        match redirectStep with
        | .error e => .error e
        | .ok db4 =>
          -- set to Sub
          if !(db4.pageOps.any (fun op => op.id = pageOpId)) then
            .error ("PageOperation document not found", db4)
          else
            let db5 := { db4 with pageOps := db4.pageOps.map (fun op =>
              if op.id = pageOpId then { op with actionStage := "Sub" } else op) }
            .ok (db5, renamedPage)

/-- `renamePage(page, newPagePath, user, options)` (PageService). -/
def renamePage (ctx : Ctx) (db : Db) (page : Page) (newPagePath : String)
    (user : Nat) (opts : RenameOptions) : Except (String × Db) (Db × Page) :=
  if db.pages.any (fun p => p.path = newPagePath) then
    .error ("Page already exists at the destination path", db)
  else if isTopPage page.path then
    .error ("It is forbidden to rename the top page", db)
  else if shouldUseV4Process ctx page then
    renamePageV4 ctx db page newPagePath user opts
  else if opts.isMoveMode
      && !(canMoveByPath page.path newPagePath
           && db.pages.any (fun p => p.path = newPagePath)) then
    .error ("Cannot move to this path.", db)
  else if !ctx.canOperate true (some page.path) newPagePath then
    .error ("Cannot operate rename to this path right now.", db)
  else
    let op : PageOp :=
      { id := db.nextId, actionType := "Rename", actionStage := "Main"
        fromPath := some page.path, toPath := newPagePath }
    let db1 := { db with pageOps := db.pageOps ++ [op], nextId := db.nextId + 1 }
    renameMainOperation ctx db1 page newPagePath user opts op.id

/-- `duplicateV4(page, newPagePath, user, isRecursively)` (PageService):
delegates to `Page.create`; the recursive descendant copy is
fire-and-forget. -/
def duplicateV4 (ctx : Ctx) (db : Db) (page : Page) (newPagePath : String)
    (user : Nat) : Except (String × Db) (Db × Page) :=
  create ctx db newPagePath user (some page.grant) page.grantedGroup

/-- `duplicate(page, newPagePath, user, isRecursively)` (PageService):
grant validation then duplication of the target (the recursive descendant
copy is fire-and-forget; tag relations are outside the Page store). -/
def duplicate (ctx : Ctx) (db : Db) (page : Page) (newPagePath : String)
    (user : Nat) (isRecursively : Bool) : Except (String × Db) (Db × Page) :=
  if shouldUseV4Process ctx page then duplicateV4 ctx db page newPagePath user
  else if !ctx.canOperate isRecursively (some page.path) newPagePath then
    .error ("Cannot operate duplicate to this path right now.", db)
  else
    -- use the parent's grant when target page is an empty page
    let grantSrc : Except (String × Db) (Nat × List Nat × Option Nat) :=
      if page.isEmpty then
        match jsFindByIdOpt db page.parent with
        | none => .error ("parent not found", db)
        | some parent => .ok (parent.grant, parent.grantedUsers, parent.grantedGroup)
      else .ok (page.grant, page.grantedUsers, page.grantedGroup)
    match grantSrc with
    | .error e => .error e
    | .ok (grant, grantedUserIds, grantedGroupId) =>
      if grant ≠ GRANT_RESTRICTED
          && !ctx.isGrantNormalized user newPagePath (some grant) grantedUserIds
              grantedGroupId false then
        .error ("This page cannot be duplicated since the selected grant or grantedGroup is not assignable to this page.", db)
      else
        let dupStep : Except (String × Db) (Db × Page) :=
          if page.isEmpty then
            match getParentAndFillAncestors db newPagePath (some user)
                (ctx.userGroupsOf user) with
            | .error e => .error e
            | .ok (db1, parent) =>
              createEmptyPage db1 newPagePath (some parent.id) none 0
          else
            create ctx db newPagePath user (some page.grant) page.grantedGroup
        match dupStep with
        | .error e => .error e
        | .ok (db1, duplicatedTarget) =>
          if isRecursively then
            let op : PageOp :=
              { id := db1.nextId, actionType := "Duplicate", actionStage := "Main"
                fromPath := some page.path, toPath := newPagePath }
            .ok ({ db1 with pageOps := db1.pageOps ++ [op], nextId := db1.nextId + 1 },
              duplicatedTarget)
          else .ok (db1, duplicatedTarget)

/-- `deleteNonEmptyTarget(page, user)` (PageService): move the target to the
trash path, detach it, write a PageRedirect (duplicate-key inserts are
swallowed). -/
def deleteNonEmptyTarget (db : Db) (page : Page) : Db × Page :=
  let newPath := getDeletedPageName page.path
  let f : Page → Page := fun p =>
    { p with path := newPath, status := STATUS_DELETED, parent := none
             descendantCount := 0 }
  let db1 := updateById db page.id f
  let db2 :=
    if db1.redirects.any (fun r => r.1 = page.path) then db1
    else { db1 with redirects := db1.redirects ++ [(page.path, newPath)] }
  (db2, f page)

/-- `deletePageV4(page, user, options, isRecursively)` (PageService); the
recursive descendant stream is fire-and-forget. -/
def deletePageV4 (db : Db) (page : Page) : Except (String × Db) (Db × Page) :=
  let newPath := getDeletedPageName page.path
  if isTrashPage page.path then
    .error ("This method does NOT support deleting trashed pages.", db)
  else if !isMovablePage page.path then
    .error ("Page is not deletable.", db)
  else
    let f : Page → Page := fun p => { p with path := newPath, status := STATUS_DELETED }
    let db1 := updateById db page.id f
    let db2 :=
      if db1.redirects.any (fun r => r.1 = page.path) then db1
      else { db1 with redirects := db1.redirects ++ [(page.path, newPath)] }
    .ok (db2, f page)

/-- `deletePage(page, user, options, isRecursively)` (PageService): the v5
soft delete.  The call passes the literal `true` in the third argument slot
of `replaceTargetWithPage` (whose third parameter is `pageToReplaceWith`). -/
def deletePage (ctx : Ctx) (db : Db) (page : Page) (isRecursively : Bool) :
    Except (String × Db) (Db × Page) :=
  if shouldUseV4Process ctx page then deletePageV4 db page
  else if page.isEmpty && !isRecursively then .error ("Page not found.", db)
  else if isTrashPage page.path then
    .error ("This method does NOT support deleting trashed pages.", db)
  else if !isMovablePage page.path then
    .error ("Page is not deletable.", db)
  else
    let newPath := getDeletedPageName page.path
    if !ctx.canOperate isRecursively (some page.path) newPath then
      .error ("Cannot operate delete to this path right now.", db)
    else
      let isChildrenExist := db.pages.any (fun p => p.parent = some page.id)
      let shouldReplace := !isRecursively && isChildrenExist
      let step1 : Except (String × Db) Db :=
        if shouldReplace then
          match replaceTargetWithPage db page none JsPageArg.jsTrue false with
          | .error e => .error e
          | .ok (db1, _) => .ok db1
        else .ok db
      match step1 with
      | .error e => .error e
      | .ok db1 =>
        let (db2, deletedPage) :=
          if !page.isEmpty then deleteNonEmptyTarget db1 page
          else (deleteWhere db1 (fun p => p.id = page.id && p.isEmpty), page)
        let countStep : Except (String × Db) Db :=
          if isRecursively then
            let inc : Int :=
              if page.isEmpty then -page.descendantCount
              else -(page.descendantCount + 1)
            updateDescendantCountOfAncestors db2 page.parent inc true
          else
            updateDescendantCountOfAncestors db2 page.parent (-1) true
        match countStep with
        | .error e => .error e
        | .ok db3 =>
          let db4 := removeLeafEmptyPagesRecursively db3 page.parent
          if isRecursively then
            let op : PageOp :=
              { id := db4.nextId, actionType := "Delete", actionStage := "Main"
                fromPath := some page.path, toPath := newPath }
            .ok ({ db4 with pageOps := db4.pageOps ++ [op], nextId := db4.nextId + 1 },
              deletedPage)
          else .ok (db4, deletedPage)

/-- Modelled from the spec: `omitDuplicateAreaPageFromPages` (pagePathUtils,
absent from src) — omit every page lying inside the subtree area of another
page of the list. -/
def omitDuplicateAreaPageFromPages (pages : List Page) : List Page :=
  pages.filter (fun p =>
    !(pages.any (fun q => q.id ≠ p.id && strStartsWith p.path (addTrailingSlash q.path))))

/-- `deleteMultiplePages(pagesToDelete, user, options)` (PageService): the
single-page operations are the service methods `deleteCompletely` /
`deletePage`, taken as parameters. -/
def deleteMultiplePages
    (deleteCompletelyFn deletePageFn : Db → Page → Except (String × Db) Db)
    (db : Db) (pagesToDelete : List Page) (isRecursively isCompletely : Bool) :
    Except (String × Db) Db :=
  if pagesToDelete.length > LIMIT_FOR_MULTIPLE_PAGE_OP then
    .error ("The maximum number of pages is 20.", db)
  else
    let pages :=
      if isRecursively then omitDuplicateAreaPageFromPages pagesToDelete
      else pagesToDelete.filter (fun p => !p.isEmpty)
    if isCompletely then pages.foldlM deleteCompletelyFn db
    else pages.foldlM deletePageFn db

/-- `normalizeParentRecursivelyByPages(pages, user)` (PageService): the
pre-checks; the remainder (grant separation, operation logs, the recursive
normalization) is the continuation. -/
def normalizeParentRecursivelyByPages
    (continuation : Db → List Page → Except (String × Db) Db)
    (db : Db) (pages : List Page) : Except (String × Db) Db :=
  if pages.length = 0 then .ok db
  else if pages.length > LIMIT_FOR_MULTIPLE_PAGE_OP then
    .error ("The maximum number of pageIds allowed is 20.", db)
  else continuation db (omitDuplicateAreaPageFromPages pages)

/-! ## `generateChildrenRegExp(path)` (page.ts)

The constructed JavaScript RegExp is
either `^\/[^/]+$` (root) or `^${path}(\/[^/]+)\/?$` — the path is
interpolated unescaped.  The matcher semantics below are defined for
patterns whose characters are regex-literal or the `.` wildcard; every
theorem restricts path characters accordingly. -/

def regexMetaChars : List Char :=
  ['.', '*', '+', '?', '(', ')', '[', ']', Char.ofNat 123, Char.ofNat 125,
   '^', '$', '|', '\\']

def isRegexLiteralChar (c : Char) : Bool := !(regexMetaChars.contains c)

/-- One pattern character against one input character (`.` matches any). -/
def charPatternMatches (pc c : Char) : Bool := if pc = '.' then true else pc = c

/-- Consume the interpolated path part of the pattern; each pattern
character consumes exactly one input character, so matching is
deterministic. -/
def matchLiteralish : List Char → List Char → Option (List Char)
  | [], input => some input
  | _ :: _, [] => none
  | pc :: ps, c :: cs =>
    if charPatternMatches pc c then matchLiteralish ps cs else none

/-- The tail pattern `(\/[^/]+)\/?$`. -/
def childSuffixOk : List Char → Bool
  | [] => false
  | c :: rest =>
    if c = '/' then
      let seg := rest.takeWhile (fun x => x ≠ '/')
      let rem := rest.dropWhile (fun x => x ≠ '/')
      !seg.isEmpty && (rem.isEmpty || rem = ['/'])
    else false

/-- Whether the RegExp built by `generateChildrenRegExp(path)` accepts `q`. -/
def generateChildrenRegExpMatches (path q : String) : Bool :=
  if isTopPage path then
    match q.data with
    | '/' :: rest => !rest.isEmpty && rest.all (fun c => c ≠ '/')
    | _ => false
  else
    match matchLiteralish path.data q.data with
    | some rest => childSuffixOk rest
    | none => false

/-- No two adjacent slashes. -/
def noDoubleSlash : List Char → Bool
  | [] => true
  | [_] => true
  | a :: b :: rest => !(a = '/' && b = '/') && noDoubleSlash (b :: rest)

/-- A well-formed (normalized) page path: the root, or a single leading
slash, non-empty segments, no trailing slash. -/
def wellFormedPath (p : String) : Bool :=
  p = "/"
  || (match p.data with
      | '/' :: rest =>
        !rest.isEmpty && rest.getLast? ≠ some '/' && noDoubleSlash ('/' :: rest)
      | _ => false)

/-! ## The migration convergence loop `_normalizeParentRecursively`
(PageService) -/

def BATCH_SIZE : Nat := 100
def PAGES_LIMIT : Nat := 1000

/-- `createBatchStream(BATCH_SIZE)`: split into chunks (fueled by the list
length, which bounds the number of chunks). -/
def chunkListGo {α : Type} : Nat → Nat → List α → List (List α)
  | 0, _, _ => []
  | _ + 1, _, [] => []
  | _ + 1, 0, _ :: _ => []
  | fuel + 1, m + 1, a :: l =>
    (a :: l).take (m + 1) :: chunkListGo fuel (m + 1) ((a :: l).drop (m + 1))

def chunkList {α : Type} (n : Nat) (l : List α) : List (List α) :=
  chunkListGo l.length n l

/-- The per-parent sibling filter of the batch write:
`^${escaped(parent.path)}(\/[^/]+)\/?$` with the `i` flag (the path is
escaped there, so it is matched literally, case-insensitively). -/
def isOneLevelChildCI (parentPath q : String) : Bool :=
  let pre := if parentPath = "/" then "" else parentPath
  if ciStartsWith q pre then
    childSuffixOk ((strToLower q).data.drop (strToLower pre).data.length)
  else false

/-- The merged candidate filter of `_normalizeParentRecursively`:
grant filter, `parent: null`, `status: published`, `path != '/'`, and the
path `$or` (an explicit path/regex list, or a public page at one of the
ancestor paths).  `pathOrRegExps` entries are embedded as string
predicates. -/
def normalizeMergedFilter (user : Option Nat) (userGroups : List Nat)
    (pathMatchers : List (String → Bool)) (publicPathsToNormalize : List String)
    (p : Page) : Bool :=
  generateGrantCondition user userGroups p
  && p.parent = none && p.status = STATUS_PUBLISHED && p.path ≠ "/"
  && (pathMatchers.any (fun m => m p.path)
      || (publicPathsToNormalize.contains p.path && p.grant = GRANT_PUBLIC))

/-- One batch of the migration write stream: delete stale empty pages at the
candidates' own paths (re-pointing one child each to null first), create the
lacking parents as empty pages, then one `updateMany` per found parent
re-parenting all its one-level children that pass the applicable-ancestors
and grant filters.  Returns the updated store with the bulk-write
`nMatched` and `nModified` counts. -/
def normalizeBatchStep (user : Option Nat) (userGroups : List Nat)
    (publicPathsToNormalize : List String) (db : Db) (batch : List Page) :
    Db × Nat × Nat :=
  let parentPaths := dedupeKeepFirst (batch.map (fun p => dirnameStr p.path))
  let pageIdsToNotDelete := batch.map (fun p => p.id)
  let emptyPagePathsToDelete := batch.map (fun p => p.path)
  let emptyPagesToDelete := db.pages.filter (fun p =>
    p.isEmpty && emptyPagePathsToDelete.contains p.path
    && !pageIdsToNotDelete.contains p.id)
  let db1 := emptyPagesToDelete.foldl (fun d ep =>
    updateFirstWhere d (fun q => q.parent = some ep.id)
      (fun q => { q with parent := none })) db
  let db2 := removeEmptyPages db1 pageIdsToNotDelete emptyPagePathsToDelete
  let db3 := createEmptyPagesByPaths db2 parentPaths user userGroups false
    (some (applicableAncestorsCond publicPathsToNormalize))
  let parents := db3.pages.filter (fun p =>
    generateGrantCondition user userGroups p
    && parentPaths.contains p.path
    && applicableAncestorsCond publicPathsToNormalize p)
  parents.foldl (fun acc parent =>
    let cond : Page → Bool := fun q =>
      isOneLevelChildCI parent.path q.path
      && applicableAncestorsCond publicPathsToNormalize q
      && generateGrantCondition user userGroups q
    let matched := acc.1.pages.filter cond
    let modified := matched.filter (fun q => q.parent ≠ some parent.id)
    (updateWhere acc.1 cond (fun q => { q with parent := some parent.id }),
     acc.2.1 + matched.length, acc.2.2 + modified.length))
    (db3, 0, 0)

/-- The candidate pages of one outer iteration (the `mergedFilter` count /
aggregation input). -/
def normalizeCandidates (user : Option Nat) (userGroups : List Nat)
    (pathMatchers : List (String → Bool)) (publicPathsToNormalize : List String)
    (db : Db) : List Page :=
  db.pages.filter (normalizeMergedFilter user userGroups pathMatchers
    publicPathsToNormalize)

/-- The candidates actually streamed in one outer iteration:
`Math.floor(total * 0.3)` of them (exact rational floor, `3 * total / 10`)
when the total exceeds `PAGES_LIMIT`. -/
def normalizeSelection (user : Option Nat) (userGroups : List Nat)
    (pathMatchers : List (String → Bool)) (publicPathsToNormalize : List String)
    (db : Db) : List Page :=
  let candidates := normalizeCandidates user userGroups pathMatchers
    publicPathsToNormalize db
  let total := candidates.length
  if total > PAGES_LIMIT then candidates.take (3 * total / 10) else candidates

/-- One outer iteration of `_normalizeParentRecursively`: stream the
throttled selection in batches of `BATCH_SIZE`; `shouldContinue` becomes
false when a batch write matches and modifies nothing. -/
def normalizeIteration (user : Option Nat) (userGroups : List Nat)
    (pathMatchers : List (String → Bool)) (publicPathsToNormalize : List String)
    (db : Db) : Db × Bool :=
  let limited := normalizeSelection user userGroups pathMatchers
    publicPathsToNormalize db
  (chunkList BATCH_SIZE limited).foldl (fun acc batch =>
    let step := normalizeBatchStep user userGroups publicPathsToNormalize
      acc.1 batch
    (step.1, acc.2 && !(step.2.2 = 0 && step.2.1 = 0))) (db, true)

/-- `_normalizeParentRecursively(pathOrRegExps, publicPathsToNormalize,
grantFiltersByUser, user)` (PageService): repeat the iteration while a page
still matches the merged filter and no iteration reported "modified and
matched nothing"; fueled (the source recursion has no intrinsic bound).
Returns the final store and the final `shouldContinue` flag. -/
def normalizeParentRecursively (user : Option Nat) (userGroups : List Nat)
    (pathMatchers : List (String → Bool)) (publicPathsToNormalize : List String) :
    Nat → Db → Except (String × Db) (Db × Bool)
  | 0, db => .error ("fuel exhausted", db)
  | fuel + 1, db =>
    let step := normalizeIteration user userGroups pathMatchers
      publicPathsToNormalize db
    if step.1.pages.any (normalizeMergedFilter user userGroups pathMatchers
        publicPathsToNormalize) && step.2 then
      normalizeParentRecursively user userGroups pathMatchers
        publicPathsToNormalize fuel step.1
    else .ok step

/-! ## Specification-side predicates and sample stores -/

/-- The invariant of the spec: every RESTRICTED page is a tree root. -/
def RestrictedRootInv (db : Db) : Prop :=
  ∀ p ∈ db.pages, p.grant = GRANT_RESTRICTED → p.parent = none

/-- A valid document store: unique ids, all below the allocator. -/
def ValidDb (db : Db) : Prop :=
  (db.pages.map (fun p => p.id)).Nodup ∧ ∀ p ∈ db.pages, p.id < db.nextId

/-- The maximal deletable chain walked by `removeLeafEmptyPagesRecursively`,
starting at a page with the previously visited child (`prev`): the chain
collects consecutive empty pages having no child other than the previous
chain member, and stops before the first page that is non-empty or has
another child, or when the parent is null or missing. -/
inductive MaxEmptyChain (db : Db) : Option Nat → Page → List Page → Prop where
  | stopHere (prev : Option Nat) (p : Page)
      (h : p.isEmpty = false ∨ existsChildOtherThan db prev p.id = true) :
      MaxEmptyChain db prev p []
  | stopAtParent (prev : Option Nat) (p : Page)
      (he : p.isEmpty = true) (hoc : existsChildOtherThan db prev p.id = false)
      (hp : jsFindByIdOpt db p.parent = none) :
      MaxEmptyChain db prev p [p]
  | step (prev : Option Nat) (p nxt : Page) (rest : List Page)
      (he : p.isEmpty = true) (hoc : existsChildOtherThan db prev p.id = false)
      (hf : jsFindByIdOpt db p.parent = some nxt)
      (htl : MaxEmptyChain db (some p.id) nxt rest) :
      MaxEmptyChain db prev p (p :: rest)

/-- Shorthand page constructor for concrete stores. -/
def mkPage (id : Nat) (path : String) (parent : Option Nat)
    (isEmptyFlag : Bool) (grant : Nat) (descendantCount : Int) : Page :=
  { id := id, path := path, parent := parent, isEmpty := isEmptyFlag
    grant := grant, grantedUsers := [], grantedGroup := none
    status := STATUS_PUBLISHED, descendantCount := descendantCount
    creator := none }

/-- A context where every oracle allows the operation. -/
def ctxAllow : Ctx :=
  { isV5Compatible := true
    canOperate := fun _ _ _ => true
    isGrantNormalized := fun _ _ _ _ _ _ => true
    userGroupsOf := fun _ => []
    canEditCond := fun _ _ => true }

/-- Sample store for the RESTRICTED-root invariant: a root, a public page
`/a` under it and a child `/a/b`. -/
def c1PageA : Page := mkPage 1 "/a" (some 0) false GRANT_PUBLIC 1

def c1Db : Db :=
  { pages := [mkPage 0 "/" none false GRANT_PUBLIC 2, c1PageA,
      mkPage 2 "/a/b" (some 1) false GRANT_PUBLIC 0]
    nextId := 3, redirects := [], pageOps := [] }

/-- A context whose grant service reports every grant as not normalized. -/
def ctxDenyGrant : Ctx :=
  { isV5Compatible := true
    canOperate := fun _ _ _ => true
    isGrantNormalized := fun _ _ _ _ _ _ => false
    userGroupsOf := fun _ => []
    canEditCond := fun _ _ => true }

/-- Store for the delete scenario: `/` — `/a` — `/a/b`. -/
def dbDelete : Db :=
  { pages := [mkPage 0 "/" none false GRANT_PUBLIC 2,
              mkPage 1 "/a" (some 0) false GRANT_PUBLIC 1,
              mkPage 2 "/a/b" (some 1) false GRANT_PUBLIC 0]
    nextId := 3, redirects := [], pageOps := [] }

def pageSlashA : Page := mkPage 1 "/a" (some 0) false GRANT_PUBLIC 1

/-- Store for the leaf-pruning scenario: `/` (non-empty) — `/x` (empty) —
`/x/y` (empty leaf). -/
def dbChain : Db :=
  { pages := [mkPage 0 "/" none false GRANT_PUBLIC 0,
              mkPage 1 "/x" (some 0) true GRANT_PUBLIC 0,
              mkPage 2 "/x/y" (some 1) true GRANT_PUBLIC 0]
    nextId := 3, redirects := [], pageOps := [] }

/-- Store for the migration scenario: the root plus one detached page. -/
def dbNorm : Db :=
  { pages := [mkPage 0 "/" none false GRANT_PUBLIC 0,
              mkPage 1 "/a" none false GRANT_PUBLIC 0]
    nextId := 2, redirects := [], pageOps := [] }

/-- n detached sibling pages for the bulk-limit scenarios. -/
def bulkPages (n : Nat) : List Page :=
  (List.range n).map (fun i => mkPage (i + 1) ("/p" ++ toString i) (some 0) false GRANT_PUBLIC 0)

instance {e a : Type} [DecidableEq e] [DecidableEq a] :
    DecidableEq (Except e a) := fun x y =>
  match x, y with
  | .error u, .error v =>
    if h : u = v then isTrue (by rw [h])
    else isFalse (by intro hc; injection hc; exact h (by assumption))
  | .error _, .ok _ => isFalse (by intro hc; cases hc)
  | .ok _, .error _ => isFalse (by intro hc; cases hc)
  | .ok u, .ok v =>
    if h : u = v then isTrue (by rw [h])
    else isFalse (by intro hc; injection hc; exact h (by assumption))

/-- The store carried by a thrown error (`none` when the call succeeded). -/
def errorStateOf {α : Type} : Except (String × Db) α → Option Db
  | .error (_, d) => some d
  | .ok _ => none

/-- The page and store produced by creating the top page on an empty store. -/
def c10Page : Page :=
  { id := 0, path := "/", parent := none, isEmpty := false
    grant := GRANT_PUBLIC, grantedUsers := [], grantedGroup := none
    status := STATUS_PUBLISHED, descendantCount := 0, creator := some 7 }

def c10Db : Db := { pages := [c10Page], nextId := 1, redirects := [], pageOps := [] }

/-- The store after the migration loop attaches `/a` in `dbNorm`. -/
def dbNormRes : Db :=
  { pages := [mkPage 0 "/" none false GRANT_PUBLIC 0,
              mkPage 1 "/a" (some 0) false GRANT_PUBLIC 0]
    nextId := 2, redirects := [], pageOps := [] }

def matchSlashA : String → Bool := fun s => s = "/a"

def matchAll : String → Bool := fun _ => true

/-- 1001 detached candidate pages, all at path `/a`. -/
def db1001 : Db :=
  { pages := (List.range 1001).map (fun i => mkPage i "/a" none false GRANT_PUBLIC 0)
    nextId := 1001, redirects := [], pageOps := [] }

/-! # Theorems -/

/-! ## Helper lemmas -/

lemma dedupeKeepFirst_subset {α : Type} [DecidableEq α] :
    ∀ (l : List α) (x : α), x ∈ dedupeKeepFirst l → x ∈ l := by
  intro l
  induction l with
  | nil => intro x hx; cases hx
  | cons a t ih =>
    intro x hx
    rw [dedupeKeepFirst] at hx
    rcases List.mem_cons.mp hx with rfl | hx
    · exact List.mem_cons_self _ _
    · exact List.mem_cons_of_mem _ (ih x (List.mem_filter.mp hx).1)

lemma dedupeKeepFirst_all_eq {α : Type} [DecidableEq α] (a : α) (l : List α)
    (h : ∀ x ∈ l, x = a) : dedupeKeepFirst (a :: l) = [a] := by
  rw [dedupeKeepFirst]
  have hnil : (dedupeKeepFirst l).filter (fun x => x ≠ a) = [] := by
    rw [List.filter_eq_nil_iff]
    intro x hx
    simp [h x (dedupeKeepFirst_subset l x hx)]
  rw [hnil]

lemma applyScope_parent (p : Page) (u : Nat) (g gid : Option Nat) :
    (applyScope p u g gid).parent = p.parent := rfl

lemma applyScope_grant (p : Page) (u : Nat) (g gid : Option Nat) :
    (applyScope p u g gid).grant = g.getD GRANT_PUBLIC := rfl

/-- The aggregation tail of `recountDescendantCount` evaluated on any list
of children of `id`. -/
lemma recount_pipeline_eq (id : Nat) (l : List Page)
    (hl : ∀ p ∈ l, p.parent = some id) :
    (match recountSetStage (recountGroupStage (recountProjectStage l)) with
     | [] => (0 : Int)
     | g :: _ => g.descendantCount)
    = (l.map (fun p => p.descendantCount)).sum
      + ((l.filter (fun p => !p.isEmpty)).length : Int) := by
  cases l with
  | nil => simp [recountProjectStage, recountGroupStage, recountSetStage, dedupeKeepFirst]
  | cons c cs =>
    have hc : c.parent = some id := hl c (by simp)
    have hded : dedupeKeepFirst ((recountProjectStage (c :: cs)).map
        (fun d => d.parent)) = [some id] := by
      have h1 : (recountProjectStage (c :: cs)).map (fun d => d.parent)
          = some id :: cs.map (fun p => p.parent) := by
        simp [recountProjectStage, List.map_map, hc]
      rw [h1]
      refine dedupeKeepFirst_all_eq _ _ (fun x hx => ?_)
      obtain ⟨p, hp, rfl⟩ := List.mem_map.mp hx
      exact hl p (by simp [hp])
    have hfilterall : (recountProjectStage (c :: cs)).filter
        (fun d => d.parent = some id) = recountProjectStage (c :: cs) := by
      rw [List.filter_eq_self]
      intro d hd
      obtain ⟨p, hp, rfl⟩ := List.mem_map.mp hd
      simp [hl p hp]
    simp only [recountGroupStage, recountSetStage, hded, List.map_cons,
      List.map_nil, hfilterall]
    have hsum : ((recountProjectStage (c :: cs)).map
        (fun d => d.descendantCount)).sum
        = ((c :: cs).map (fun p => p.descendantCount)).sum := by
      simp [recountProjectStage, List.map_map]
      rfl
    have hcnt : ((recountProjectStage (c :: cs)).filter
        (fun d => !d.isEmpty)).length
        = ((c :: cs).filter (fun p => !p.isEmpty)).length := by
      simp only [recountProjectStage, ← List.countP_eq_length_filter,
        List.countP_map]
      rfl
    simp [hsum, hcnt]

/-- C6: `recountDescendantCount(pageId)` returns the sum of the immediate
children's `descendantCount` plus the number of non-empty immediate
children, hence 0 when there are no children; the value depends only on the
immediate children. -/
theorem recountDescendantCount_spec (db : Db) (id : Nat) :
    recountDescendantCount db id =
      ((db.pages.filter (fun p => p.parent = some id)).map
        (fun p => p.descendantCount)).sum
      + (((db.pages.filter (fun p => p.parent = some id)).filter
          (fun p => !p.isEmpty)).length : Int)
    ∧ (db.pages.filter (fun p => p.parent = some id) = [] →
        recountDescendantCount db id = 0) := by
  have hmem : ∀ p ∈ db.pages.filter (fun p => p.parent = some id),
      p.parent = some id := by
    intro p hp
    have := List.mem_filter.mp hp
    simpa using this.2
  have hmain := recount_pipeline_eq id _ hmem
  have heq : recountDescendantCount db id
      = (match recountSetStage (recountGroupStage (recountProjectStage
          (db.pages.filter (fun p => p.parent = some id)))) with
         | [] => (0 : Int)
         | g :: _ => g.descendantCount) := rfl
  refine ⟨heq.trans hmain, fun hnil => ?_⟩
  rw [heq, hmain, hnil]
  simp

/-- C7: `renamePage` rejects a rename whose destination path is occupied or
whose target is the top page, leaving the whole store untouched — the two
checks precede the operation-log write and every mutation. -/
theorem renamePage_precondition_rejects (ctx : Ctx) (db : Db) (page : Page)
    (newPagePath : String) (user : Nat) (opts : RenameOptions)
    (h : db.pages.any (fun p => p.path = newPagePath) = true
         ∨ isTopPage page.path = true) :
    errorStateOf (renamePage ctx db page newPagePath user opts) = some db := by
  cases hany : db.pages.any (fun p => p.path = newPagePath) with
  | true => rw [renamePage, if_pos hany]; rfl
  | false =>
    have htop : isTopPage page.path = true := by
      rcases h with h | h
      · rw [hany] at h; cases h
      · exact h
    rw [renamePage, if_neg (by simp [hany]), if_pos htop]; rfl

/-- C8: `deleteMultiplePages` and `normalizeParentRecursivelyByPages` reject
more than `LIMIT_FOR_MULTIPLE_PAGE_OP` (20) pages before touching the store
or invoking any per-page operation (the error carries the unchanged store
and does not depend on the injected per-page functions); with 20 or fewer
pages the limit check passes and the call proceeds to the per-page
processing. -/
theorem bulkOperations_limit_twenty
    (f g : Db → Page → Except (String × Db) Db)
    (cont : Db → List Page → Except (String × Db) Db)
    (db : Db) (pagesToDelete pagesToNorm : List Page) (r c : Bool) :
    (pagesToDelete.length > LIMIT_FOR_MULTIPLE_PAGE_OP →
      deleteMultiplePages f g db pagesToDelete r c =
        .error ("The maximum number of pages is 20.", db))
    ∧ (pagesToDelete.length ≤ LIMIT_FOR_MULTIPLE_PAGE_OP →
      deleteMultiplePages f g db pagesToDelete r c =
        (let pages :=
          if r then omitDuplicateAreaPageFromPages pagesToDelete
          else pagesToDelete.filter (fun p => !p.isEmpty)
         if c then pages.foldlM f db else pages.foldlM g db))
    ∧ (pagesToNorm.length > LIMIT_FOR_MULTIPLE_PAGE_OP →
      normalizeParentRecursivelyByPages cont db pagesToNorm =
        .error ("The maximum number of pageIds allowed is 20.", db))
    ∧ (0 < pagesToNorm.length → pagesToNorm.length ≤ LIMIT_FOR_MULTIPLE_PAGE_OP →
      normalizeParentRecursivelyByPages cont db pagesToNorm =
        cont db (omitDuplicateAreaPageFromPages pagesToNorm)) := by
  refine ⟨fun h => ?_, fun h => ?_, fun h => ?_, fun h0 h => ?_⟩
  · rw [deleteMultiplePages, if_pos (by exact_mod_cast h)]
  · rw [deleteMultiplePages, if_neg (by omega)]
  · rw [normalizeParentRecursivelyByPages, if_neg (by omega), if_pos (by exact_mod_cast h)]
  · rw [normalizeParentRecursivelyByPages, if_neg (by omega), if_neg (by omega)]

/-- C10: creating the top page forces `grant = PUBLIC` and `parent = null`
regardless of the requested grant. -/
theorem create_topPage_forces_public_root (ctx : Ctx) (db : Db) (path : String)
    (user : Nat) (optGrant grantUserGroupId : Option Nat) (db' : Db) (pg : Page)
    (hv5 : ctx.isV5Compatible = true) (htop : isTopPage path = true)
    (hok : create ctx db path user optGrant grantUserGroupId = .ok (db', pg)) :
    pg.grant = GRANT_PUBLIC ∧ pg.parent = none := by
  rw [create, hv5] at hok
  simp only [Bool.not_true, Bool.false_eq_true, if_false, htop, if_true] at hok
  split at hok
  · cases hok
  · split at hok
    · cases hok
    · split at hok
      · cases hok
      · split at hok
        · cases hok
        · rename_i db1 newParent heq
          have hnp : newParent = none ∧ db1 = db := by
            simp only [Bool.true_or, reduceIte, Except.ok.injEq, Prod.mk.injEq] at heq
            exact ⟨heq.2.symm, heq.1.symm⟩
          obtain ⟨rfl, rfl⟩ := hnp
          split at hok
          · cases hok
          · simp only [Except.ok.injEq, Prod.mk.injEq] at hok
            obtain ⟨-, rfl⟩ := hok
            split
            · exact ⟨rfl, rfl⟩
            · exact ⟨rfl, rfl⟩

/-- C3: when `pageGrantService.isGrantNormalized` reports false, `create`,
`renamePage` and `duplicate` (with an effective grant other than RESTRICTED,
on their v5 paths) throw, and the Page collection is exactly as before the
call — the grant check precedes every page mutation.  (`renamePage` has
already written its PageOperation log record, which is not a Page.) -/
theorem grantNormalization_rejection_no_mutation (ctx : Ctx) (db : Db) (user : Nat)
    (hden : ∀ u p g us gr cd, ctx.isGrantNormalized u p g us gr cd = false) :
    (∀ (path : String) (og gid : Option Nat), ctx.isV5Compatible = true →
       (if isTopPage path then some GRANT_PUBLIC else og) ≠ some GRANT_RESTRICTED →
       errorStateOf (create ctx db path user og gid) = some db)
    ∧ (∀ (page : Page) (newPagePath : String) (opts : RenameOptions),
        shouldUseV4Process ctx page = false →
        (if page.isEmpty then (jsFindByIdOpt db page.parent).map (fun q => q.grant)
         else some page.grant) ≠ some GRANT_RESTRICTED →
        (errorStateOf (renamePage ctx db page newPagePath user opts)).map
          (fun d => d.pages) = some db.pages)
    ∧ (∀ (page : Page) (newPagePath : String) (r : Bool),
        shouldUseV4Process ctx page = false →
        (if page.isEmpty then (jsFindByIdOpt db page.parent).map (fun q => q.grant)
         else some page.grant) ≠ some GRANT_RESTRICTED →
        errorStateOf (duplicate ctx db page newPagePath user r) = some db) := by
  refine ⟨?_, ?_, ?_⟩
  · intro path og gid hv5 heff
    rw [create, hv5]
    simp only [Bool.not_true, Bool.false_eq_true, if_false]
    by_cases hco : ctx.canOperate false none path = true
    · by_cases hex : (db.pages.any fun p => p.path = path && !p.isEmpty) = true
      · rw [if_neg (by simp [hco]), if_pos hex]; rfl
      · rw [if_neg (by simp [hco]), if_neg hex, if_pos heff, hden]
        simp only [Bool.not_false, if_true]
        rfl
    · rw [if_pos (by simp [Bool.not_eq_true'] at hco ⊢; exact hco)]; rfl
  · intro page newPagePath opts hv4 heff
    by_cases hany : (db.pages.any fun p => p.path = newPagePath) = true
    · rw [renamePage, if_pos hany]; rfl
    · by_cases htop : isTopPage page.path = true
      · rw [renamePage, if_neg (by simp [hany]), if_pos htop]; rfl
      · rw [renamePage, if_neg (by simp [hany]), if_neg (by simp [htop]),
          if_neg (by simp [hv4])]
        by_cases hmv : (opts.isMoveMode
            && !(canMoveByPath page.path newPagePath
                 && db.pages.any (fun p => p.path = newPagePath))) = true
        · rw [if_pos hmv]; rfl
        · rw [if_neg hmv]
          by_cases hco : ctx.canOperate true (some page.path) newPagePath = true
          · rw [if_neg (by simp [hco])]
            rw [renameMainOperation]
            by_cases hempty : page.isEmpty = true
            · rw [if_pos hempty] at heff
              rw [if_pos hempty]
              cases hp : page.parent with
              | none => rfl
              | some pid =>
                simp only [jsFindByIdOpt, findById] at heff ⊢
                rw [hp] at heff
                simp only [hp] at heff ⊢
                cases hfind : db.pages.find? (fun p => p.id = pid) with
                | none => rfl
                | some parent =>
                  have hg : parent.grant ≠ GRANT_RESTRICTED := by
                    simpa [hfind] using heff
                  simp only [hden, Bool.not_false, Bool.and_true]
                  rw [if_pos (show decide (parent.grant ≠ GRANT_RESTRICTED) = true by
                    simp [hg])]
                  rfl
            · rw [if_neg hempty] at heff
              have hg : page.grant ≠ GRANT_RESTRICTED := by simpa using heff
              rw [if_neg hempty]
              simp only [hden, Bool.not_false, Bool.and_true]
              rw [if_pos (show decide (page.grant ≠ GRANT_RESTRICTED) = true by
                simp [hg])]
              rfl
          · rw [if_pos (by simp [Bool.not_eq_true'] at hco ⊢; exact hco)]; rfl
  · intro page newPagePath r hv4 heff
    rw [duplicate, if_neg (by simp [hv4])]
    by_cases hco : ctx.canOperate r (some page.path) newPagePath = true
    · rw [if_neg (by simp [hco])]
      by_cases hempty : page.isEmpty = true
      · rw [if_pos hempty] at heff
        rw [if_pos hempty]
        cases hp : page.parent with
        | none => rfl
        | some pid =>
          simp only [jsFindByIdOpt, findById] at heff ⊢
          rw [hp] at heff
          simp only [hp] at heff ⊢
          cases hfind : db.pages.find? (fun p => p.id = pid) with
          | none => rfl
          | some parent =>
            have hg : parent.grant ≠ GRANT_RESTRICTED := by
              simpa [hfind] using heff
            simp only [hden, Bool.not_false, Bool.and_true]
            rw [if_pos (show decide (parent.grant ≠ GRANT_RESTRICTED) = true by
              simp [hg])]
            rfl
      · rw [if_neg hempty] at heff
        have hg : page.grant ≠ GRANT_RESTRICTED := by simpa using heff
        rw [if_neg hempty]
        simp only [hden, Bool.not_false, Bool.and_true]
        rw [if_pos (show decide (page.grant ≠ GRANT_RESTRICTED) = true by
          simp [hg])]
        rfl
    · rw [if_pos (by simp [Bool.not_eq_true'] at hco ⊢; exact hco)]; rfl

/-- C4: the migration convergence loop processes only
`floor(total * 0.3)` candidates in an iteration whose candidate count
exceeds `PAGES_LIMIT` (1000), and the loop repeats with the same filter
until no candidate matches it, unless an iteration reported "modified and
matched nothing" (`shouldContinue = false`). -/
theorem normalizeParentRecursively_throttle_and_convergence
    (user : Option Nat) (groups : List Nat)
    (ms : List (String → Bool)) (pubs : List String) :
    (∀ db : Db, (normalizeCandidates user groups ms pubs db).length > PAGES_LIMIT →
      (normalizeSelection user groups ms pubs db).length =
        3 * (normalizeCandidates user groups ms pubs db).length / 10)
    ∧ (∀ (fuel : Nat) (db db' : Db) (c : Bool),
        normalizeParentRecursively user groups ms pubs fuel db = .ok (db', c) →
        normalizeCandidates user groups ms pubs db' = [] ∨ c = false) := by
  constructor
  · intro db h
    rw [normalizeSelection]
    simp only [if_pos h, List.length_take]
    omega
  · intro fuel
    induction fuel with
    | zero => intro db db' c h; cases h
    | succ n ih =>
      intro db db' c h
      simp only [normalizeParentRecursively] at h
      split at h
      · exact ih _ _ _ h
      · rename_i hguard
        simp only [Except.ok.injEq] at h
        rw [h] at hguard
        cases hc : c
        · right; rfl
        · left
          subst hc
          simp only [Bool.and_true, Bool.not_eq_true] at hguard
          rw [normalizeCandidates, List.filter_eq_nil_iff]
          intro p hp
          have := List.any_eq_false.mp hguard p hp
          simpa using this

/-- C2 (evaluation at the failing input): non-recursively soft-deleting the
non-empty, movable, non-trashed page `/a`, which has the child `/a/b`,
succeeds — but afterwards no empty placeholder exists at `/a` (the filter
count is 0), no page was inserted (still 3 pages), and the child `/a/b` was
re-parented to null instead of a placeholder; the redirect and the ancestor
decrement do happen (root count 2 → 1, target moved to `/trash/a` with
status deleted and parent null). -/
theorem deletePage_nonrecursive_drops_placeholder :
    ((deletePage ctxAllow dbDelete pageSlashA false).toOption.map (fun r =>
      ((r.1.pages.filter (fun p => p.path = "/a" && p.isEmpty)).length,
       r.1.pages.length,
       (r.1.pages.find? (fun p => p.id = 2)).map (fun p => p.parent),
       r.1.redirects,
       (r.1.pages.find? (fun p => p.id = 1)).map
         (fun p => (p.path, p.status, p.parent)),
       (r.1.pages.find? (fun p => p.id = 0)).map (fun p => p.descendantCount))))
    = some (0, 3, some none, [("/a", "/trash/a")],
        some ("/trash/a", STATUS_DELETED, none), some 1) := by
  rfl

/-- Witness for C6 at a concrete store: the root of `dbDelete` has one
child (`/a`, descendantCount 1), and a fresh id has no children. -/
theorem recountDescendantCount_spec_witness :
    recountDescendantCount dbDelete 0 =
      ((dbDelete.pages.filter (fun p => p.parent = some 0)).map
        (fun p => p.descendantCount)).sum
      + (((dbDelete.pages.filter (fun p => p.parent = some 0)).filter
          (fun p => !p.isEmpty)).length : Int)
    ∧ (dbDelete.pages.filter (fun p => p.parent = some 99) = [] →
        recountDescendantCount dbDelete 99 = 0) :=
  ⟨(recountDescendantCount_spec dbDelete 0).1,
   (recountDescendantCount_spec dbDelete 99).2⟩

/-- Witness for C7: renaming `/a` onto the occupied path `/a/b` is rejected
with the store untouched. -/
theorem renamePage_precondition_rejects_witness :
    errorStateOf (renamePage ctxAllow dbDelete pageSlashA "/a/b" 7
      ⟨false, false, false, false⟩) = some dbDelete :=
  renamePage_precondition_rejects ctxAllow dbDelete pageSlashA "/a/b" 7
    ⟨false, false, false, false⟩ (Or.inl (by decide))

/-- Witness for C8: 21 pages are rejected with the store untouched; a
single page passes the limit check and reaches the processing step. -/
theorem bulkOperations_limit_twenty_witness :
    deleteMultiplePages (fun d _ => .ok d) (fun d _ => .ok d) dbNorm
      (bulkPages 21) false false = .error ("The maximum number of pages is 20.", dbNorm)
    ∧ normalizeParentRecursivelyByPages (fun d _ => .ok d) dbNorm (bulkPages 1)
      = (fun (d : Db) (_ : List Page) => (.ok d : Except (String × Db) Db)) dbNorm
          (omitDuplicateAreaPageFromPages (bulkPages 1)) :=
  ⟨(bulkOperations_limit_twenty (fun d _ => .ok d) (fun d _ => .ok d)
      (fun d _ => .ok d) dbNorm (bulkPages 21) (bulkPages 1) false false).1
      (by decide),
   (bulkOperations_limit_twenty (fun d _ => .ok d) (fun d _ => .ok d)
      (fun d _ => .ok d) dbNorm (bulkPages 21) (bulkPages 1) false false).2.2.2
      (by decide) (by decide)⟩

/-- Witness for C10: creating `/` on an empty store with a RESTRICTED grant
request yields a PUBLIC root page with a null parent. -/
theorem create_topPage_forces_public_root_witness :
    c10Page.grant = GRANT_PUBLIC ∧ c10Page.parent = none :=
  create_topPage_forces_public_root ctxAllow
    { pages := [], nextId := 0, redirects := [], pageOps := [] } "/" 7
    (some GRANT_RESTRICTED) none c10Db c10Page rfl (by decide) rfl

/-- Witness for C3: with a denying grant service, creating `/c` over
`dbDelete` throws with the Page collection untouched, and so do rename and
duplicate of `/a`. -/
theorem grantNormalization_rejection_no_mutation_witness :
    errorStateOf (create ctxDenyGrant dbDelete "/c" 7 none none) = some dbDelete
    ∧ (errorStateOf (renamePage ctxDenyGrant dbDelete pageSlashA "/c" 7
        ⟨false, false, false, false⟩)).map (fun d => d.pages)
      = some dbDelete.pages
    ∧ errorStateOf (duplicate ctxDenyGrant dbDelete pageSlashA "/c" 7 false)
      = some dbDelete :=
  ⟨(grantNormalization_rejection_no_mutation ctxDenyGrant dbDelete 7
      (fun _ _ _ _ _ _ => rfl)).1 "/c" none none rfl (by decide),
   (grantNormalization_rejection_no_mutation ctxDenyGrant dbDelete 7
      (fun _ _ _ _ _ _ => rfl)).2.1 pageSlashA "/c" ⟨false, false, false, false⟩
      (by decide) (by decide),
   (grantNormalization_rejection_no_mutation ctxDenyGrant dbDelete 7
      (fun _ _ _ _ _ _ => rfl)).2.2 pageSlashA "/c" false
      (by decide) (by decide)⟩

set_option maxRecDepth 8192 in
/-- Witness for C4: with 1001 candidates the selection is the 300-page
throttle; on the small store the loop converges with no candidate left. -/
theorem normalizeParentRecursively_witness :
    (normalizeSelection none [] [matchAll] [] db1001).length =
      3 * (normalizeCandidates none [] [matchAll] [] db1001).length / 10
    ∧ (normalizeCandidates none [] [matchSlashA] [] dbNormRes = []
       ∨ (true : Bool) = false) :=
  ⟨(normalizeParentRecursively_throttle_and_convergence none [] [matchAll] []).1
      db1001 (by decide),
   (normalizeParentRecursively_throttle_and_convergence none [] [matchSlashA] []).2
      3 dbNorm dbNormRes true (by decide)⟩

lemma generateIds_of_maxChain (db : Db) (ps : List Page) (prev : Option Nat)
    (p : Page) (hmc : MaxEmptyChain db prev p ps) :
    ∀ (fuel : Nat) (acc : List Nat), ps.length ≤ fuel →
    generatePageIdsToRemove db fuel prev p acc = acc ++ ps.map (fun q => q.id) := by
  induction hmc with
  | stopHere prev p h =>
    intro fuel acc hlen
    cases fuel with
    | zero => simp [generatePageIdsToRemove]
    | succ n =>
      rw [generatePageIdsToRemove]
      rcases h with h | h
      · rw [if_pos (by simp [h])]
        simp
      · cases hie : p.isEmpty with
        | false => rw [if_pos (by simp [hie])]; simp
        | true => rw [if_neg (by simp [hie]), if_pos h]; simp
  | stopAtParent prev p he hoc hp =>
    intro fuel acc hlen
    cases fuel with
    | zero => simp at hlen
    | succ n =>
      rw [generatePageIdsToRemove, if_neg (by simp [he]), if_neg (by simp [hoc]), hp]
      simp
  | step prev p nxt rest he hoc hf htl ih =>
    intro fuel acc hlen
    cases fuel with
    | zero => simp at hlen
    | succ n =>
      rw [generatePageIdsToRemove, if_neg (by simp [he]), if_neg (by simp [hoc]), hf]
      show generatePageIdsToRemove db n (some p.id) nxt (acc ++ [p.id])
        = acc ++ (p :: rest).map (fun q => q.id)
      rw [ih n (acc ++ [p.id]) (by simpa using hlen)]
      simp

/-- C5: `removeLeafEmptyPagesRecursively(pageId)` deletes nothing when the
initial page is missing or non-empty, and otherwise deletes exactly the
maximal chain of empty pages walked upward from the initial page — each
chain member empty with no child other than the previous member, the walk
stopping at the first non-empty ancestor, the first ancestor with another
child, or a null/missing parent (`MaxEmptyChain`). -/
theorem removeLeafEmptyPages_spec (db : Db) (pageId : Option Nat) :
    (jsFindByIdOpt db pageId = none → removeLeafEmptyPagesRecursively db pageId = db)
    ∧ (∀ initialPage, jsFindByIdOpt db pageId = some initialPage →
        initialPage.isEmpty = false →
        removeLeafEmptyPagesRecursively db pageId = db)
    ∧ (∀ initialPage ps, jsFindByIdOpt db pageId = some initialPage →
        initialPage.isEmpty = true →
        MaxEmptyChain db none initialPage ps →
        ps.length ≤ db.pages.length + 1 →
        removeLeafEmptyPagesRecursively db pageId =
          deleteWhere db (fun p => (ps.map (fun q => q.id)).contains p.id)) := by
  refine ⟨fun h => ?_, fun initialPage h hne => ?_, fun initialPage ps h he hmc hlen => ?_⟩
  · rw [removeLeafEmptyPagesRecursively, h]
  · rw [removeLeafEmptyPagesRecursively]
    simp only [h]
    rw [if_pos (by simp [hne])]
  · rw [removeLeafEmptyPagesRecursively]
    simp only [h]
    rw [if_neg (by simp [he])]
    rw [generateIds_of_maxChain db ps none initialPage hmc _ [] hlen]
    rfl

/-- Witness for C5: pruning from the empty leaf `/x/y` of `dbChain` deletes
exactly the chain `/x/y`, `/x`. -/
theorem removeLeafEmptyPages_spec_witness :
    removeLeafEmptyPagesRecursively dbChain (some 2) =
      deleteWhere dbChain (fun p =>
        (([mkPage 2 "/x/y" (some 1) true GRANT_PUBLIC 0,
           mkPage 1 "/x" (some 0) true GRANT_PUBLIC 0]).map (fun q => q.id)).contains p.id) :=
  (removeLeafEmptyPages_spec dbChain (some 2)).2.2
    (mkPage 2 "/x/y" (some 1) true GRANT_PUBLIC 0)
    [mkPage 2 "/x/y" (some 1) true GRANT_PUBLIC 0,
     mkPage 1 "/x" (some 0) true GRANT_PUBLIC 0]
    rfl rfl
    (MaxEmptyChain.step none _ (mkPage 1 "/x" (some 0) true GRANT_PUBLIC 0) _
      rfl (by decide) rfl
      (MaxEmptyChain.step (some 2) _ (mkPage 0 "/" none false GRANT_PUBLIC 0) _
        rfl (by decide) rfl
        (MaxEmptyChain.stopHere (some 1) _ (Or.inl rfl))))
    (by decide)

lemma takeWhile_app_all {p : Char → Bool} :
    ∀ (l t : List Char), (∀ x ∈ l, p x = true) →
    (l ++ t).takeWhile p = l ++ t.takeWhile p := by
  intro l t h
  induction l with
  | nil => simp
  | cons a l ih =>
    have ha : p a = true := h a (by simp)
    simp [List.takeWhile_cons, ha, ih (fun x hx => h x (by simp [hx]))]

lemma dropWhile_app_all {p : Char → Bool} :
    ∀ (l t : List Char), (∀ x ∈ l, p x = true) →
    (l ++ t).dropWhile p = t.dropWhile p := by
  intro l t h
  induction l with
  | nil => simp
  | cons a l ih =>
    have ha : p a = true := h a (by simp)
    simp [List.dropWhile_cons, ha, ih (fun x hx => h x (by simp [hx]))]

lemma matchLiteralish_literal (pat : List Char)
    (hlit : ∀ c ∈ pat, isRegexLiteralChar c = true) :
    ∀ (input : List Char) (rest : List Char),
    (matchLiteralish pat input = some rest ↔ input = pat ++ rest) := by
  induction pat with
  | nil =>
    intro input rest
    simp [matchLiteralish]
  | cons pc ps ih =>
    intro input rest
    have hpc : pc ≠ '.' := by
      intro hcontra
      have := hlit pc (by simp)
      rw [hcontra] at this
      simp [isRegexLiteralChar, regexMetaChars] at this
    cases input with
    | nil => simp [matchLiteralish]
    | cons c cs =>
      rw [matchLiteralish]
      constructor
      · intro h
        split at h
        · rename_i hm
          have hcm : pc = c := by
            simpa [charPatternMatches, hpc] using hm
          have := (ih (fun x hx => hlit x (by simp [hx])) cs rest).mp h
          simp [hcm, this]
        · cases h
      · intro h
        simp only [List.cons_append, List.cons.injEq] at h
        obtain ⟨rfl, h2⟩ := h
        rw [if_pos (by simp [charPatternMatches, hpc])]
        exact (ih (fun x hx => hlit x (by simp [hx])) cs rest).mpr h2

lemma isEmpty_true_iff (l : List Char) : l.isEmpty = true ↔ l = [] := by
  cases l <;> simp

lemma childSuffixOk_iff (rest : List Char) :
    childSuffixOk rest = true ↔
    ∃ seg : List Char, seg ≠ [] ∧ (∀ c ∈ seg, c ≠ '/')
      ∧ (rest = '/' :: seg ∨ rest = '/' :: (seg ++ ['/'])) := by
  constructor
  · intro h
    cases rest with
    | nil => simp [childSuffixOk] at h
    | cons c r =>
      rw [childSuffixOk] at h
      by_cases hc : c = '/'
      · rw [if_pos hc] at h
        subst hc
        simp only [Bool.and_eq_true, Bool.not_eq_true', Bool.or_eq_true] at h
        obtain ⟨hne, hrem⟩ := h
        have hseg : r.takeWhile (fun x => x ≠ '/') ≠ [] := by
          intro h0
          rw [h0] at hne
          simp at hne
        refine ⟨r.takeWhile (fun x => x ≠ '/'), hseg,
          fun x hx => by simpa using List.mem_takeWhile_imp hx, ?_⟩
        have hdec := (List.takeWhile_append_dropWhile
          (p := fun x => decide (x ≠ '/')) (l := r)).symm
        rcases hrem with hrem | hrem
        · left
          rw [(isEmpty_true_iff _).mp hrem, List.append_nil] at hdec
          rw [← hdec]
        · right
          rw [of_decide_eq_true hrem] at hdec
          rw [← hdec]
      · rw [if_neg hc] at h
        cases h
  · intro ⟨seg, hne, hall, hcase⟩
    have hallb : ∀ x ∈ seg, (fun x => decide (x ≠ '/')) x = true := by
      intro x hx
      simpa using hall x hx
    rcases hcase with rfl | rfl
    · rw [childSuffixOk, if_pos rfl]
      have h1 : seg.takeWhile (fun x => x ≠ '/') = seg := by
        have := takeWhile_app_all (p := fun x => decide (x ≠ '/')) seg [] hallb
        simpa using this
      have h2 : seg.dropWhile (fun x => x ≠ '/') = [] := by
        have := dropWhile_app_all (p := fun x => decide (x ≠ '/')) seg [] hallb
        simpa using this
      simp only [h1, h2]
      simp [hne]
    · rw [childSuffixOk, if_pos rfl]
      have h1 : (seg ++ ['/']).takeWhile (fun x => x ≠ '/') = seg := by
        have := takeWhile_app_all (p := fun x => decide (x ≠ '/')) seg ['/'] hallb
        simpa using this
      have h2 : (seg ++ ['/']).dropWhile (fun x => x ≠ '/') = ['/'] := by
        have := dropWhile_app_all (p := fun x => decide (x ≠ '/')) seg ['/'] hallb
        simpa using this
      simp only [h1, h2]
      simp [hne]

lemma dropWhile_head_false {p : Char → Bool} :
    ∀ (l : List Char) (a : Char) (r : List Char),
    l.dropWhile p = a :: r → p a = false := by
  intro l
  induction l with
  | nil => intro a r h; cases h
  | cons x xs ih =>
    intro a r h
    rw [List.dropWhile_cons] at h
    by_cases hx : p x = true
    · rw [if_pos hx] at h
      exact ih a r h
    · rw [if_neg hx] at h
      cases h
      exact Bool.not_eq_true _ |>.mp hx

lemma dropWhile_ne_nil_of_mem {p : Char → Bool} {l : List Char} (x : Char)
    (hx : x ∈ l) (hpx : p x = false) : l.dropWhile p ≠ [] := by
  intro h0
  have hl : l.takeWhile p = l := by
    have := List.takeWhile_append_dropWhile (p := p) (l := l)
    rw [h0, List.append_nil] at this
    exact this
  have : p x = true := List.mem_takeWhile_imp (by rw [hl]; exact hx)
  rw [hpx] at this
  cases this

lemma noDoubleSlash_no_adjacent : ∀ (l1 l2 : List Char),
    noDoubleSlash (l1 ++ '/' :: '/' :: l2) = false := by
  intro l1 l2
  induction l1 with
  | nil => simp [noDoubleSlash]
  | cons a l1 ih =>
    have hne : l1 ++ '/' :: '/' :: l2 ≠ [] := by simp
    cases h : l1 ++ '/' :: '/' :: l2 with
    | nil => exact absurd h hne
    | cons b rest =>
      rw [List.cons_append, h, noDoubleSlash, ← h, ih, Bool.and_false]

lemma wellFormed_structure (q : String) (hq : wellFormedPath q = true)
    (hne : q ≠ "/") :
    ∃ rest, q.data = '/' :: rest ∧ rest ≠ []
      ∧ q.data.getLast? ≠ some '/' ∧ noDoubleSlash q.data = true := by
  simp only [wellFormedPath, Bool.or_eq_true, decide_eq_true_eq] at hq
  rcases hq with hq | hq
  · exact absurd hq hne
  · split at hq
    · rename_i rest heq
      simp only [Bool.and_eq_true, Bool.not_eq_true', decide_eq_true_eq,
        Bool.not_eq_true, ne_eq, decide_eq_false_iff_not] at hq
      obtain ⟨⟨hre, hlast⟩, hnds⟩ := hq
      have hrene : rest ≠ [] := by
        intro h0; rw [h0] at hre; simp at hre
      refine ⟨rest, heq, hrene, ?_, by rw [heq]; exact hnds⟩
      rw [heq]
      cases rest with
      | nil => exact absurd rfl hrene
      | cons r0 rs =>
        rw [List.getLast?_cons_cons]
        exact hlast
    · cases hq

lemma dirnameStr_append_seg (p : String) (seg : List Char)
    (hp : p.data ≠ []) (hseg : ∀ c ∈ seg, c ≠ '/') :
    dirnameStr ⟨p.data ++ '/' :: seg⟩ = p := by
  have hrev : (p.data ++ '/' :: seg).reverse
      = seg.reverse ++ '/' :: p.data.reverse := by
    simp [List.reverse_append]
  have hdrop : (seg.reverse ++ '/' :: p.data.reverse).dropWhile
      (fun c => decide (c ≠ '/')) = '/' :: p.data.reverse := by
    rw [dropWhile_app_all _ _
      (fun x hx => by simpa using hseg x (List.mem_reverse.mp hx))]
    simp
  simp only [dirnameStr]
  rw [hrev, hdrop]
  cases hpd : p.data.reverse with
  | nil =>
    exact absurd (by simpa using congrArg List.reverse hpd) hp
  | cons x xs =>
    show (⟨(x :: xs).reverse⟩ : String) = p
    rw [show (x :: xs).reverse = p.data from by
      rw [← hpd, List.reverse_reverse]]

lemma dirnameStr_root_seg (seg : List Char) (hseg : ∀ c ∈ seg, c ≠ '/') :
    dirnameStr ⟨'/' :: seg⟩ = "/" := by
  simp only [dirnameStr]
  rw [show ('/' :: seg).reverse = seg.reverse ++ ['/'] from by simp]
  rw [dropWhile_app_all _ _
    (fun x hx => by simpa using hseg x (List.mem_reverse.mp hx))]
  rfl

lemma dirname_decomp (q : String) (hq : wellFormedPath q = true)
    (hne : q ≠ "/") :
    ∃ seg : List Char, seg ≠ [] ∧ (∀ c ∈ seg, c ≠ '/')
      ∧ ((dirnameStr q = "/" ∧ q.data = '/' :: seg)
         ∨ (dirnameStr q ≠ "/" ∧ q.data = (dirnameStr q).data ++ '/' :: seg)) := by
  obtain ⟨rest, hdata, hrne, hlast, hnds⟩ := wellFormed_structure q hq hne
  have hslash : ('/' : Char) ∈ q.data.reverse := by
    rw [List.mem_reverse, hdata]
    exact List.mem_cons_self _ _
  have hrnnil : q.data.reverse.dropWhile (fun c => decide (c ≠ '/')) ≠ [] :=
    dropWhile_ne_nil_of_mem '/' hslash (by simp)
  cases hr : q.data.reverse.dropWhile (fun c => decide (c ≠ '/')) with
  | nil => exact absurd hr hrnnil
  | cons a r2 =>
    have ha : a = '/' := by
      have := dropWhile_head_false _ _ _ hr
      simpa using this
    subst ha
    have hdecomp : q.data.reverse
        = q.data.reverse.takeWhile (fun c => decide (c ≠ '/')) ++ '/' :: r2 := by
      conv_lhs => rw [← List.takeWhile_append_dropWhile
        (p := fun c => decide (c ≠ '/')) (l := q.data.reverse)]
      rw [hr]
    have hsegslash : ∀ c ∈ q.data.reverse.takeWhile (fun c => decide (c ≠ '/')),
        c ≠ '/' := by
      intro c hc
      have := List.mem_takeWhile_imp hc
      simpa using this
    have hsegne : q.data.reverse.takeWhile (fun c => decide (c ≠ '/')) ≠ [] := by
      intro h0
      rw [h0, List.nil_append] at hdecomp
      have : q.data.getLast? = some '/' := by
        rw [← List.head?_reverse, hdecomp]
        rfl
      exact hlast this
    have hqdata : q.data = r2.reverse
        ++ '/' :: (q.data.reverse.takeWhile (fun c => decide (c ≠ '/'))).reverse := by
      have h1 := congrArg List.reverse hdecomp
      rw [List.reverse_reverse] at h1
      conv_lhs => rw [h1]
      simp [List.reverse_append]
    refine ⟨(q.data.reverse.takeWhile (fun c => decide (c ≠ '/'))).reverse,
      by simpa using hsegne,
      fun c hc => hsegslash c (List.mem_reverse.mp hc), ?_⟩
    by_cases hr2 : r2 = []
    · left
      subst hr2
      refine ⟨?_, by simpa using hqdata⟩
      simp only [dirnameStr]
      rw [hr]
      rfl
    · right
      cases r2 with
      | nil => exact absurd rfl hr2
      | cons d r3 =>
        have hdir : dirnameStr q = ⟨(d :: r3).reverse⟩ := by
          simp only [dirnameStr]
          rw [hr]
          rfl
        have hr3slash : (d :: r3).reverse ≠ ['/'] := by
          intro h0
          have hd3 : d :: r3 = ['/'] := by
            have h2 := congrArg List.reverse h0
            rw [List.reverse_reverse] at h2
            simpa using h2
          rw [hd3] at hdecomp
          have hq2 : q.data = '/' :: '/'
              :: (q.data.reverse.takeWhile (fun c => decide (c ≠ '/'))).reverse := by
            have h2 := congrArg List.reverse hdecomp
            rw [List.reverse_reverse] at h2
            conv_lhs => rw [h2]
            simp [List.reverse_append]
          have h3 := noDoubleSlash_no_adjacent []
            ((q.data.reverse.takeWhile (fun c => decide (c ≠ '/'))).reverse)
          rw [List.nil_append] at h3
          rw [hq2, h3] at hnds
          cases hnds
        refine ⟨?_, ?_⟩
        · rw [hdir]
          intro h0
          exact hr3slash (congrArg String.data h0)
        · conv_lhs => rw [hqdata]
          rw [hdir]

lemma root_data : ("/" : String).data = ['/'] := rfl

/-- C9 (amended): for a well-formed path `p` whose characters are all
regex-literal (no regex metacharacters) and a well-formed path `q`, the
RegExp built by `generateChildrenRegExp(p)` accepts `q` iff `q` is exactly
one level deeper under `p`, i.e. `dirname(q) = p` and `q` is not the root.
The amendment restricting `p` to metacharacter-free paths is required:
the source interpolates `path` into the pattern unescaped. -/
theorem generateChildrenRegExp_matches_iff (p q : String)
    (hp : wellFormedPath p = true)
    (hlit : ∀ c ∈ p.data, isRegexLiteralChar c = true)
    (hq : wellFormedPath q = true) :
    generateChildrenRegExpMatches p q = true ↔ (dirnameStr q = p ∧ q ≠ "/") := by
  by_cases htop : p = "/"
  · subst htop
    simp only [generateChildrenRegExpMatches]
    rw [if_pos (by simp [isTopPage])]
    constructor
    · intro h
      split at h
      · rename_i rest heq
        simp only [Bool.and_eq_true, Bool.not_eq_true', List.all_eq_true,
          decide_eq_true_eq] at h
        obtain ⟨hre, hall⟩ := h
        have hrene : rest ≠ [] := by
          intro h0; rw [h0] at hre; simp at hre
        refine ⟨?_, ?_⟩
        · have hq' : q = ⟨'/' :: rest⟩ := by
            rw [← heq]
          rw [hq']
          exact dirnameStr_root_seg rest hall
        · intro h0
          rw [h0, root_data] at heq
          injection heq with h1 h2
          exact hrene h2.symm
      · cases h
    · intro hh
      obtain ⟨hdir, hne⟩ := hh
      obtain ⟨seg, hsegne, hsegsl, hcase⟩ := dirname_decomp q hq hne
      rcases hcase with ⟨_, hqd⟩ | ⟨hdne, _⟩
      · rw [hqd]
        show (!seg.isEmpty && seg.all (fun c => decide (c ≠ '/'))) = true
        simp only [Bool.and_eq_true, Bool.not_eq_true', List.all_eq_true,
          decide_eq_true_eq]
        exact ⟨by simpa [List.isEmpty_iff] using hsegne, hsegsl⟩
      · exact absurd hdir hdne
  · obtain ⟨prest, hpdata, hprne, hplast, hpnds⟩ := wellFormed_structure p hp htop
    have hpne : p.data ≠ [] := by rw [hpdata]; simp
    simp only [generateChildrenRegExpMatches]
    rw [if_neg (by simp [isTopPage, htop])]
    constructor
    · intro h
      split at h
      · rename_i rest hm
        have hqd : q.data = p.data ++ rest :=
          (matchLiteralish_literal p.data hlit q.data rest).mp hm
        obtain ⟨seg, hsegne, hsegsl, hcase⟩ := (childSuffixOk_iff rest).mp h
        have hqne : q ≠ "/" := by
          intro h0
          rw [h0, root_data, hpdata] at hqd
          rcases hcase with rfl | rfl
          · simp at hqd
          · simp at hqd
        rcases hcase with rfl | rfl
        · refine ⟨?_, hqne⟩
          have hq' : q = ⟨p.data ++ '/' :: seg⟩ := by
            rw [← hqd]
          rw [hq']
          exact dirnameStr_append_seg p seg hpne hsegsl
        · exfalso
          obtain ⟨qrest, hqdat2, hqrne, hqlast, hqnds⟩ :=
            wellFormed_structure q hq hqne
          apply hqlast
          rw [hqd]
          rw [show p.data ++ '/' :: (seg ++ ['/'])
            = (p.data ++ '/' :: seg) ++ ['/'] from by simp]
          exact List.getLast?_concat _
      · cases h
    · intro hh
      obtain ⟨hdir, hne2⟩ := hh
      obtain ⟨seg, hsegne, hsegsl, hcase⟩ := dirname_decomp q hq hne2
      rcases hcase with ⟨hdroot, _⟩ | ⟨_, hqd⟩
      · rw [hdroot] at hdir
        exact absurd hdir.symm htop
      · rw [hdir] at hqd
        have hm : matchLiteralish p.data q.data = some ('/' :: seg) :=
          (matchLiteralish_literal p.data hlit q.data ('/' :: seg)).mpr hqd
        rw [hm]
        exact (childSuffixOk_iff ('/' :: seg)).mpr ⟨seg, hsegne, hsegsl, Or.inl rfl⟩

/-- C9 counterexample to the original (unrestricted) claim: `"/a.b"` is a
well-formed path, but its unescaped `.` matches any character, so the
matcher built for `"/a.b"` accepts `"/axb/c"`, which is not one level
deeper under `"/a.b"` (it is outside its subtree entirely). -/
theorem generateChildrenRegExp_counterexample :
    wellFormedPath "/a.b" = true ∧ wellFormedPath "/axb/c" = true
    ∧ generateChildrenRegExpMatches "/a.b" "/axb/c" = true
    ∧ dirnameStr "/axb/c" ≠ "/a.b"
    ∧ strStartsWith "/axb/c" "/a.b/" = false := by
  decide

/-- C9 witness: the amended theorem applied at `p = "/a"`, `q = "/a/b"`. -/
theorem generateChildrenRegExp_matches_iff_witness :
    (generateChildrenRegExpMatches "/a" "/a/b" = true
      ↔ (dirnameStr "/a/b" = "/a" ∧ "/a/b" ≠ "/")) :=
  generateChildrenRegExp_matches_iff "/a" "/a/b" (by decide) (by decide)
    (by decide)

/-! ## C1 helper lemmas: invariant preservation by the store primitives -/

lemma inv_updateWhere (db : Db) (cond : Page → Bool) (f : Page → Page)
    (hinv : RestrictedRootInv db)
    (hf : ∀ p ∈ db.pages, cond p = true →
      (f p).grant = GRANT_RESTRICTED → (f p).parent = none) :
    RestrictedRootInv (updateWhere db cond f) := by
  intro q hq hg
  simp only [updateWhere, List.mem_map] at hq
  obtain ⟨p, hp, hpq⟩ := hq
  by_cases hc : cond p = true
  · rw [if_pos hc] at hpq
    subst hpq
    exact hf p hp hc hg
  · rw [if_neg hc] at hpq
    subst hpq
    exact hinv p hp hg

lemma inv_updateById (db : Db) (i : Nat) (f : Page → Page)
    (hinv : RestrictedRootInv db)
    (hf : ∀ p ∈ db.pages, p.id = i →
      (f p).grant = GRANT_RESTRICTED → (f p).parent = none) :
    RestrictedRootInv (updateById db i f) := by
  intro q hq hg
  simp only [updateById, List.mem_map] at hq
  obtain ⟨p, hp, hpq⟩ := hq
  by_cases hc : p.id = i
  · rw [if_pos hc] at hpq
    subst hpq
    exact hf p hp hc hg
  · rw [if_neg hc] at hpq
    subst hpq
    exact hinv p hp hg

lemma inv_deleteWhere (db : Db) (cond : Page → Bool)
    (hinv : RestrictedRootInv db) :
    RestrictedRootInv (deleteWhere db cond) := by
  intro q hq hg
  simp only [deleteWhere, List.mem_filter] at hq
  exact hinv q hq.1 hg

lemma inv_insertPage (db : Db) (p : Page)
    (hinv : RestrictedRootInv db)
    (hp : p.grant = GRANT_RESTRICTED → p.parent = none) :
    RestrictedRootInv (insertPage db p) := by
  intro q hq hg
  simp only [insertPage, List.mem_append, List.mem_singleton] at hq
  rcases hq with hq | rfl
  · exact hinv q hq hg
  · exact hp hg

lemma inv_insertEmptyPagesAt (db : Db) (paths : List String)
    (creator : Option Nat) (hinv : RestrictedRootInv db) :
    RestrictedRootInv (insertEmptyPagesAt db paths creator).1 := by
  induction paths generalizing db with
  | nil => exact hinv
  | cons q rest ih =>
    simp only [insertEmptyPagesAt]
    exact ih _ (inv_insertPage _ _ hinv (by intro h; cases h))

lemma inv_createEmptyPagesByPaths (db : Db) (paths : List String)
    (user : Option Nat) (gs : List Nat) (m : Bool) (ef : Option (Page → Bool))
    (hinv : RestrictedRootInv db) :
    RestrictedRootInv (createEmptyPagesByPaths db paths user gs m ef) :=
  inv_insertEmptyPagesAt _ _ _ hinv

lemma inv_incrementDescendantCount (db : Db) (ids : List Nat) (inc : Int)
    (hinv : RestrictedRootInv db) :
    RestrictedRootInv (incrementDescendantCountOfPageIds db ids inc) :=
  inv_updateWhere _ _ _ hinv (fun p hp _ hg => hinv p hp (by
    simpa using hg))

lemma inv_updateDescendantCountOfAncestors (db db' : Db) (pid : Option Nat)
    (inc : Int) (t : Bool) (hinv : RestrictedRootInv db)
    (hok : updateDescendantCountOfAncestors db pid inc t = .ok db') :
    RestrictedRootInv db' := by
  simp only [updateDescendantCountOfAncestors] at hok
  split at hok
  · cases hok
  · injection hok with h
    subst h
    exact inv_incrementDescendantCount _ _ _ hinv

lemma inv_removeLeafEmptyPages (db : Db) (pid : Option Nat)
    (hinv : RestrictedRootInv db) :
    RestrictedRootInv (removeLeafEmptyPagesRecursively db pid) := by
  simp only [removeLeafEmptyPagesRecursively]
  split
  · exact hinv
  · split
    · exact hinv
    · exact inv_deleteWhere _ _ hinv

lemma valid_updateWhere (db : Db) (cond : Page → Bool) (f : Page → Page)
    (hv : ValidDb db) (hf : ∀ p, (f p).id = p.id) :
    ValidDb (updateWhere db cond f) := by
  obtain ⟨hnd, hlt⟩ := hv
  constructor
  · simp only [updateWhere]
    rw [List.map_map]
    have : ∀ p ∈ db.pages,
        ((fun p => p.id) ∘ fun p => if cond p then f p else p) p
          = (fun p : Page => p.id) p := by
      intro p _
      by_cases h : cond p = true <;> simp [h, hf]
    rw [List.map_congr_left this]
    exact hnd
  · intro q hq
    simp only [updateWhere, List.mem_map] at hq
    obtain ⟨p, hp, hpq⟩ := hq
    have : q.id = p.id := by
      subst hpq
      by_cases h : cond p = true <;> simp [h, hf]
    rw [this]
    exact hlt p hp

lemma valid_updateById (db : Db) (i : Nat) (f : Page → Page)
    (hv : ValidDb db) (hf : ∀ p, (f p).id = p.id) :
    ValidDb (updateById db i f) := by
  obtain ⟨hnd, hlt⟩ := hv
  constructor
  · simp only [updateById]
    rw [List.map_map]
    have : ∀ p ∈ db.pages,
        ((fun p => p.id) ∘ fun p => if p.id = i then f p else p) p
          = (fun p : Page => p.id) p := by
      intro p _
      by_cases h : p.id = i <;> simp [h, hf]
    rw [List.map_congr_left this]
    exact hnd
  · intro q hq
    simp only [updateById, List.mem_map] at hq
    obtain ⟨p, hp, hpq⟩ := hq
    have : q.id = p.id := by
      subst hpq
      by_cases h : p.id = i <;> simp [h, hf]
    rw [this]
    exact hlt p hp

lemma valid_insertPage (db : Db) (p : Page) (hv : ValidDb db)
    (hid : p.id = db.nextId) : ValidDb (insertPage db p) := by
  obtain ⟨hnd, hlt⟩ := hv
  constructor
  · simp only [insertPage, List.map_append, List.map_cons, List.map_nil]
    refine List.Nodup.append hnd (List.nodup_singleton _) ?_
    intro a ha hb
    simp only [List.mem_singleton] at hb
    subst hb
    simp only [List.mem_map] at ha
    obtain ⟨q, hq, hqa⟩ := ha
    have := hlt q hq
    rw [hqa, hid] at this
    exact absurd this (lt_irrefl _)
  · intro q hq
    simp only [insertPage, List.mem_append, List.mem_singleton] at hq
    rcases hq with hq | rfl
    · exact Nat.lt_succ_of_lt (hlt q hq)
    · rw [hid]
      exact Nat.lt_succ_self _
  
lemma valid_insertEmptyPagesAt (db : Db) (paths : List String)
    (creator : Option Nat) (hv : ValidDb db) :
    ValidDb (insertEmptyPagesAt db paths creator).1 := by
  induction paths generalizing db with
  | nil => exact hv
  | cons q rest ih =>
    simp only [insertEmptyPagesAt]
    exact ih _ (valid_insertPage _ _ hv rfl)

lemma valid_createEmptyPagesByPaths (db : Db) (paths : List String)
    (user : Option Nat) (gs : List Nat) (m : Bool) (ef : Option (Page → Bool))
    (hv : ValidDb db) :
    ValidDb (createEmptyPagesByPaths db paths user gs m ef) :=
  valid_insertEmptyPagesAt _ _ _ hv

lemma mem_insertByDescPath (x y : Page) (l : List Page) :
    y ∈ insertByDescPath x l ↔ y = x ∨ y ∈ l := by
  induction l with
  | nil => simp [insertByDescPath]
  | cons z zs ih =>
    simp only [insertByDescPath]
    by_cases h : z.path < x.path
    · rw [if_pos h]
      simp
    · rw [if_neg h]
      simp only [List.mem_cons, ih]
      tauto

lemma mem_sortPagesByDescPath (y : Page) (l : List Page) :
    y ∈ sortPagesByDescPath l ↔ y ∈ l := by
  induction l with
  | nil => simp [sortPagesByDescPath]
  | cons z zs ih =>
    simp only [sortPagesByDescPath, mem_insertByDescPath, ih, List.mem_cons]

lemma inv_foldl_updateParent (ops : List (Nat × Nat)) (db : Db)
    (hinv : RestrictedRootInv db)
    (hops : ∀ op ∈ ops, ∀ p ∈ db.pages, p.id = op.1 →
      p.grant ≠ GRANT_RESTRICTED) :
    RestrictedRootInv (ops.foldl
      (fun d op => updateById d op.1
        (fun p => { p with parent := some op.2 })) db) := by
  induction ops generalizing db with
  | nil => exact hinv
  | cons op ops ih =>
    rw [List.foldl_cons]
    apply ih
    · apply inv_updateById _ _ _ hinv
      intro p hp hpid hg
      exact absurd hg (hops op (List.mem_cons_self _ _) p hp hpid)
    · intro op' hop' p hp hpid
      simp only [updateById, List.mem_map] at hp
      obtain ⟨q, hq, hpq⟩ := hp
      have hid : p.id = q.id := by
        subst hpq
        by_cases h : q.id = op.1 <;> simp [h]
      have hgr : p.grant = q.grant := by
        subst hpq
        by_cases h : q.id = op.1 <;> simp [h]
      rw [hgr]
      exact hops op' (List.mem_cons_of_mem _ hop') q hq (by
        rw [← hid]; exact hpid)

lemma opsFold_mem (amap : String → Option Page) (err : String × Db) :
    ∀ (l : List Page) (ops : List (Nat × Nat)),
    (l.foldr (fun p acc =>
        match acc, amap (dirnameStr p.path) with
        | .error e, _ => .error e
        | .ok l', some anc => .ok ((p.id, anc.id) :: l')
        | .ok _, none => .error err)
      (.ok []) : Except (String × Db) (List (Nat × Nat))) = .ok ops →
    ∀ op ∈ ops, ∃ p ∈ l, op.1 = p.id := by
  intro l
  induction l with
  | nil =>
    intro ops h op hop
    rw [List.foldr_nil] at h
    injection h with h
    subst h
    cases hop
  | cons p l ih =>
    intro ops h op hop
    rw [List.foldr_cons] at h
    split at h
    · cases h
    · rename_i l' anc hacc hanc
      injection h with h
      subst h
      rcases List.mem_cons.mp hop with rfl | htl
      · exact ⟨p, List.mem_cons_self _ _, rfl⟩
      · obtain ⟨q, hq, hqid⟩ := ih l' hacc op htl
        exact ⟨q, List.mem_cons_of_mem _ hq, hqid⟩
    · cases h

lemma inv_getParentAndFillAncestors (db db1 : Db) (path : String)
    (user : Option Nat) (gs : List Nat) (pp : Page)
    (hv : ValidDb db) (hinv : RestrictedRootInv db)
    (hok : getParentAndFillAncestors db path user gs = .ok (db1, pp)) :
    RestrictedRootInv db1 := by
  simp only [getParentAndFillAncestors] at hok
  split at hok
  · injection hok with h
    rw [Prod.mk.injEq] at h
    obtain ⟨rfl, rfl⟩ := h
    exact hinv
  · split at hok
    · cases hok
    · rename_i ops hops
      split at hok
      · rename_i cp hcp
        injection hok with h
        rw [Prod.mk.injEq] at h
        obtain ⟨rfl, rfl⟩ := h
        have hinv1 : RestrictedRootInv (createEmptyPagesByPaths db
            (collectAncestorPaths path) user gs true none) :=
          inv_createEmptyPagesByPaths _ _ _ _ _ _ hinv
        have hv1 : ValidDb (createEmptyPagesByPaths db
            (collectAncestorPaths path) user gs true none) :=
          valid_createEmptyPagesByPaths _ _ _ _ _ _ hv
        apply inv_foldl_updateParent _ _ hinv1
        intro op hop p hp hpid
        obtain ⟨pa, hpa, hopid⟩ := opsFold_mem
          (fun s => List.find? (fun p1 => decide (p1.path = s))
            (sortPagesByDescPath
              (List.filter
                (fun p => applicableAncestorsCond (collectAncestorPaths path) p
                  && (collectAncestorPaths path).contains p.path)
                (createEmptyPagesByPaths db (collectAncestorPaths path)
                  user gs true none).pages)))
          ("TypeError: ancestor page is undefined",
            createEmptyPagesByPaths db (collectAncestorPaths path)
              user gs true none)
          _ _ hops op hop
        rw [List.mem_filter] at hpa
        obtain ⟨hpaanc, hpatop⟩ := hpa
        rw [mem_sortPagesByDescPath, List.mem_filter] at hpaanc
        obtain ⟨hpamem, hpacond⟩ := hpaanc
        have hpe : p = pa :=
          List.inj_on_of_nodup_map hv1.1 hp hpamem (by
            rw [hpid, hopid])
        subst hpe
        intro hg
        simp only [Bool.not_eq_true'] at hpatop
        simp only [applicableAncestorsCond, Bool.and_eq_true, Bool.or_eq_true,
          decide_eq_true_eq] at hpacond
        obtain ⟨hcondA, hcont⟩ := hpacond
        rcases hcondA with ((hroot | hpub) | hpar) | hnc
        · rw [show isTopPage p.path = true from by
            simp [isTopPage, hroot]] at hpatop
          cases hpatop
        · obtain ⟨⟨_, hg1⟩, _⟩ := hpub
          rw [hg] at hg1
          simp [GRANT_RESTRICTED, GRANT_PUBLIC] at hg1
        · obtain ⟨⟨_, hg1⟩, _⟩ := hpar
          exact hg1 (hinv1 p hpamem hg)
        · obtain ⟨hg1, _⟩ := hnc
          rw [hcont] at hg1
          cases hg1
      · cases hok

lemma create_inv (ctx : Ctx) (db : Db) (path : String) (user : Nat)
    (og gg : Option Nat) (db' : Db) (pg : Page)
    (hv : ValidDb db) (hinv : RestrictedRootInv db)
    (hok : create ctx db path user og gg = .ok (db', pg)) :
    RestrictedRootInv db'
    ∧ (pg.grant = GRANT_RESTRICTED → pg.parent = none)
    ∧ (og = some GRANT_RESTRICTED → pg.parent = none) := by
  by_cases hv5 : ctx.isV5Compatible = true
  · rw [create, hv5] at hok
    simp only [Bool.not_true, Bool.false_eq_true, if_false] at hok
    split at hok
    · cases hok
    · split at hok
      · cases hok
      · split at hok
        · cases hok
        · split at hok
          · cases hok
          · rename_i db1 newParent heq
            revert hok
            generalize hreuse :
              (match List.find? (fun p => decide (p.path = path) && p.isEmpty)
                  db.pages with
               | some ep =>
                 if (if isTopPage path = true then some GRANT_PUBLIC else og)
                     ≠ some GRANT_RESTRICTED then
                   some (ep, recountDescendantCount db ep.id)
                 else none
               | none => none : Option (Page × Int)) = r
            intro hok
            split at hok
            · cases hok
            · rename_i db4 hdb4
              injection hok with h
              rw [Prod.mk.injEq] at h
              obtain ⟨rfl, rfl⟩ := h
              have hcases : (db1 = db ∧ newParent = none)
                  ∨ (RestrictedRootInv db1 ∧ isTopPage path = false
                     ∧ (if isTopPage path = true then some GRANT_PUBLIC else og)
                        ≠ some GRANT_RESTRICTED) := by
                by_cases hcond : (isTopPage path
                    || decide ((if isTopPage path = true then some GRANT_PUBLIC
                        else og) = some GRANT_RESTRICTED)) = true
                · rw [if_pos hcond] at heq
                  injection heq with h2
                  rw [Prod.mk.injEq] at h2
                  exact Or.inl ⟨h2.1.symm, h2.2.symm⟩
                · rw [if_neg hcond] at heq
                  split at heq
                  · cases heq
                  · rename_i d ppg hg2
                    injection heq with h2
                    rw [Prod.mk.injEq] at h2
                    simp only [Bool.or_eq_true, decide_eq_true_eq, not_or] at hcond
                    refine Or.inr ⟨?_, ?_, hcond.2⟩
                    · rw [← h2.1]
                      exact inv_getParentAndFillAncestors db d path _ _ ppg
                        hv hinv hg2
                    · rw [Bool.not_eq_true] at hcond
                      exact hcond.1
              have hinv1 : RestrictedRootInv db1 := by
                rcases hcases with ⟨rfl, -⟩ | ⟨h1, -, -⟩
                · exact hinv
                · exact h1
              have hpoint : ((if isTopPage path = true then some GRANT_PUBLIC
                  else og).getD GRANT_PUBLIC = GRANT_RESTRICTED) → newParent = none := by
                intro hg
                rcases hcases with ⟨-, rfl⟩ | ⟨-, htopf, hgne⟩
                · rfl
                · exfalso
                  rw [htopf] at hg hgne
                  simp only [Bool.false_eq_true, if_false] at hg hgne
                  cases og with
                  | none => simp [Option.getD, GRANT_PUBLIC, GRANT_RESTRICTED] at hg
                  | some g =>
                    exact hgne (by simp only [Option.getD] at hg; rw [hg])
              have hogpoint : og = some GRANT_RESTRICTED → newParent = none := by
                intro hg
                rcases hcases with ⟨-, rfl⟩ | ⟨-, htopf, hgne⟩
                · rfl
                · exfalso
                  rw [htopf] at hgne
                  simp only [Bool.false_eq_true, if_false] at hgne
                  exact hgne hg
              cases r with
              | some pc =>
                obtain ⟨ep, c⟩ := pc
                dsimp only at hdb4 ⊢
                refine ⟨?_, ?_, ?_⟩
                · refine inv_updateDescendantCountOfAncestors _ _ _ _ _ ?_ hdb4
                  refine inv_updateById db1 ep.id _ hinv1 ?_
                  intro p hp hpid hg
                  rw [applyScope_grant] at hg
                  rw [applyScope_parent]
                  exact hpoint hg
                · intro hg
                  rw [applyScope_grant] at hg
                  rw [applyScope_parent]
                  exact hpoint hg
                · intro hg
                  rw [applyScope_parent]
                  exact hogpoint hg
              | none =>
                dsimp only at hdb4 ⊢
                refine ⟨?_, ?_, ?_⟩
                · refine inv_updateDescendantCountOfAncestors _ _ _ _ _ ?_ hdb4
                  refine inv_insertPage db1 _ hinv1 ?_
                  intro hg
                  rw [applyScope_grant] at hg
                  rw [applyScope_parent]
                  exact hpoint hg
                · intro hg
                  rw [applyScope_grant] at hg
                  rw [applyScope_parent]
                  exact hpoint hg
                · intro hg
                  rw [applyScope_parent]
                  exact hogpoint hg
  · rw [create] at hok
    rw [Bool.not_eq_true] at hv5
    rw [hv5] at hok
    simp only [Bool.not_false, if_true] at hok
    rw [createV4] at hok
    split at hok
    · cases hok
    · injection hok with h
      rw [Prod.mk.injEq] at h
      obtain ⟨rfl, rfl⟩ := h
      refine ⟨?_, ?_, ?_⟩
      · refine inv_insertPage db _ hinv ?_
        intro _
        rw [applyScope_parent]
      · intro _
        rw [applyScope_parent]
      · intro _
        rw [applyScope_parent]

lemma inv_createEmptyPage (db dE : Db) (path : String) (par : Option Nat)
    (cr : Option Nat) (dc : Int) (pgE : Page) (hinv : RestrictedRootInv db)
    (hok : createEmptyPage db path par cr dc = .ok (dE, pgE)) :
    RestrictedRootInv dE := by
  simp only [createEmptyPage] at hok
  split at hok
  · cases hok
  · injection hok with h
    rw [Prod.mk.injEq] at h
    obtain ⟨rfl, rfl⟩ := h
    refine inv_insertPage db _ hinv ?_
    intro h
    simp [GRANT_PUBLIC, GRANT_RESTRICTED] at h

lemma updatePage_inv (ctx : Ctx) (db : Db) (pageData : Page) (user : Nat)
    (og gid : Option Nat) (db' : Db) (pg : Page)
    (hv5 : ctx.isV5Compatible = true) (hv : ValidDb db)
    (hinv : RestrictedRootInv db) (hmem : pageData ∈ db.pages)
    (hok : updatePage ctx db pageData user og gid = .ok (db', pg)) :
    RestrictedRootInv db'
    ∧ (pg.grant = GRANT_RESTRICTED → pg.parent = none) := by
  simp only [updatePage] at hok
  split at hok
  · rename_i hv4
    rw [shouldUseUpdatePageV4, hv5] at hv4
    simp only [Bool.not_true, Bool.false_or, Bool.and_eq_true,
      Bool.not_eq_true'] at hv4
    obtain ⟨hgr, hw⟩ := hv4
    have hpar : pageData.parent = none := by
      rcases Bool.or_eq_false_iff.mp hw with ⟨h1, -⟩
      simpa using h1
    simp only [updatePageV4] at hok
    injection hok with h
    rw [Prod.mk.injEq] at h
    obtain ⟨rfl, rfl⟩ := h
    constructor
    · refine inv_updateById db pageData.id _ hinv ?_
      intro p hp hpid hg
      have hpe : p = pageData :=
        List.inj_on_of_nodup_map hv.1 hp hmem (by rw [hpid])
      subst hpe
      rw [applyScope_parent]
      exact hpar
    · intro hg
      rw [applyScope_parent]
      exact hpar
  · rename_i hv4
    revert hok
    generalize hGG : (match gid with
      | some g => some g
      | none => pageData.grantedGroup : Option Nat) = GG
    generalize hGU : (if pageData.grantedUsers.isEmpty = true then [user]
      else pageData.grantedUsers) = GU
    intro hok
    split at hok
    · cases hok
    · rename_i db1 newParent newDescCount hbr
      split at hok
      · cases hok
      · rename_i db4 hcs
        injection hok with h
        rw [Prod.mk.injEq] at h
        obtain ⟨rfl, rfl⟩ := h
        have hbranch : RestrictedRootInv db1
            ∧ (og.getD pageData.grant = GRANT_RESTRICTED → newParent = none) := by
          by_cases hsbt : og.getD pageData.grant ≠ GRANT_RESTRICTED
          · rw [if_pos hsbt] at hbr
            split at hbr
            · cases hbr
            · split at hbr
              · split at hbr
                · cases hbr
                · rename_i d np hg2
                  injection hbr with h2
                  simp only [Prod.mk.injEq] at h2
                  obtain ⟨h2a, h2b, -⟩ := h2
                  subst h2a
                  exact ⟨inv_getParentAndFillAncestors db d pageData.path
                    _ _ np hv hinv hg2, fun hg => absurd hg hsbt⟩
              · injection hbr with h2
                simp only [Prod.mk.injEq] at h2
                obtain ⟨h2a, -, -⟩ := h2
                subst h2a
                exact ⟨hinv, fun hg => absurd hg hsbt⟩
          · rw [if_neg hsbt] at hbr
            split at hbr
            · cases hbr
            · rename_i d1 hchild
              injection hbr with h2
              simp only [Prod.mk.injEq] at h2
              obtain ⟨h2a, h2b, -⟩ := h2
              subst h2a
              subst h2b
              refine ⟨?_, fun _ => rfl⟩
              split at hchild
              · split at hchild
                · cases hchild
                · rename_i dE pgE heE
                  injection hchild with h3
                  subst h3
                  refine inv_updateWhere dE _ _
                    (inv_createEmptyPage db dE pageData.path pageData.parent
                      (some user) pageData.descendantCount pgE hinv heE) ?_
                  intro p hp hc hg
                  simp only at hg
                  have := inv_createEmptyPage db dE pageData.path
                    pageData.parent (some user) pageData.descendantCount pgE
                    hinv heE p hp hg
                  simp only [decide_eq_true_eq] at hc
                  rw [hc] at this
                  cases this
              · injection hchild with h3
                subst h3
                exact hinv
        obtain ⟨hA, hpoint⟩ := hbranch
        have hinv2 : RestrictedRootInv (updateById db1 pageData.id
            (fun p => applyScope
              { p with parent := newParent, descendantCount := newDescCount }
              user (some (og.getD pageData.grant)) GG)) := by
          refine inv_updateById db1 pageData.id _ hA ?_
          intro p hp hpid hg
          rw [applyScope_grant] at hg
          simp only [Option.getD_some] at hg
          rw [applyScope_parent]
          exact hpoint hg
        have hinv4 : RestrictedRootInv db4 := by
          by_cases hc1 : (!(decide (pageData.parent ≠ none)
                || isTopPage pageData.path)
              && decide (og.getD pageData.grant ≠ GRANT_RESTRICTED)) = true
          · simp only [hc1, reduceIte] at hcs
            split at hcs
            · cases hcs
            · rename_i X hX
              injection hcs with h4
              subst h4
              have hinvX : RestrictedRootInv X := by
                refine inv_updateDescendantCountOfAncestors _ X _ _ _ ?_ hX
                split
                · rename_i ep hep
                  refine inv_deleteWhere _ _ ?_
                  split
                  · rename_i ep2 hep2
                    split
                    · refine inv_updateWhere _ _ _ hinv2 ?_
                      intro p hp hc hg
                      simp only at hg
                      have := hinv2 p hp hg
                      simp only [decide_eq_true_eq] at hc
                      rw [hc] at this
                      cases this
                    · exact hinv2
                  · exact hinv2
                · split
                  · rename_i ep2 hep2
                    split
                    · refine inv_updateWhere _ _ _ hinv2 ?_
                      intro p hp hc hg
                      simp only at hg
                      have := hinv2 p hp hg
                      simp only [decide_eq_true_eq] at hc
                      rw [hc] at this
                      cases this
                    · exact hinv2
                  · exact hinv2
              refine inv_updateById X pageData.id _ hinvX ?_
              intro p hp hpid hg
              simp only at hg
              have := hinvX p hp hg
              simpa using this
          · have hc1' : (!(decide (pageData.parent ≠ none)
                  || isTopPage pageData.path)
                && decide (og.getD pageData.grant ≠ GRANT_RESTRICTED)) = false :=
              Bool.eq_false_iff.mpr hc1
            simp only [hc1', Bool.false_eq_true, if_false] at hcs
            by_cases hc2 : ((decide (pageData.parent ≠ none)
                  || isTopPage pageData.path)
                && !decide (og.getD pageData.grant ≠ GRANT_RESTRICTED)) = true
            · simp only [hc2, reduceIte] at hcs
              split at hcs
              · exact inv_updateDescendantCountOfAncestors _ db4 _ _ _ hinv2 hcs
              · injection hcs with h4
                subst h4
                exact hinv2
            · have hc2' : ((decide (pageData.parent ≠ none)
                    || isTopPage pageData.path)
                  && !decide (og.getD pageData.grant ≠ GRANT_RESTRICTED)) = false :=
                Bool.eq_false_iff.mpr hc2
              simp only [hc2', Bool.false_eq_true, if_false] at hcs
              injection hcs with h4
              subst h4
              exact hinv2
        constructor
        · split
          · exact inv_removeLeafEmptyPages _ _ hinv4
          · exact hinv4
        · intro hg
          rw [applyScope_grant] at hg
          simp only [Option.getD_some] at hg
          rw [applyScope_parent]
          exact hpoint hg


lemma applyScope_id (p : Page) (u : Nat) (g gid : Option Nat) :
    (applyScope p u g gid).id = p.id := rfl

lemma applyScope_path (p : Page) (u : Nat) (g gid : Option Nat) :
    (applyScope p u g gid).path = p.path := rfl

lemma applyScope_isEmpty (p : Page) (u : Nat) (g gid : Option Nat) :
    (applyScope p u g gid).isEmpty = p.isEmpty := rfl

lemma exists_P_updateWhere (db : Db) (cond : Page → Bool) (f : Page → Page)
    (P : Page → Prop)
    (h : ∃ p ∈ db.pages, (cond p = true → P (f p)) ∧ (cond p = false → P p)) :
    ∃ q ∈ (updateWhere db cond f).pages, P q := by
  obtain ⟨p, hp, h1, h2⟩ := h
  refine ⟨if cond p then f p else p, ?_, ?_⟩
  · simp only [updateWhere]
    exact List.mem_map_of_mem _ hp
  · by_cases hc : cond p = true
    · rw [if_pos hc]
      exact h1 hc
    · rw [if_neg hc]
      exact h2 (Bool.eq_false_iff.mpr hc)

lemma exists_P_updateById (db : Db) (i : Nat) (f : Page → Page)
    (P : Page → Prop)
    (h : ∃ p ∈ db.pages, (p.id = i → P (f p)) ∧ (p.id ≠ i → P p)) :
    ∃ q ∈ (updateById db i f).pages, P q := by
  obtain ⟨p, hp, h1, h2⟩ := h
  refine ⟨if p.id = i then f p else p, ?_, ?_⟩
  · simp only [updateById]
    exact List.mem_map_of_mem _ hp
  · by_cases hc : p.id = i
    · rw [if_pos hc]
      exact h1 hc
    · rw [if_neg hc]
      exact h2 hc

lemma exists_P_insertPage_new (db : Db) (pg : Page) (P : Page → Prop)
    (h : P pg) : ∃ q ∈ (insertPage db pg).pages, P q :=
  ⟨pg, by simp [insertPage], h⟩

lemma exists_P_insertPage_old (db : Db) (pg : Page) (P : Page → Prop)
    (p : Page) (hp : p ∈ db.pages) (h : P p) :
    ∃ q ∈ (insertPage db pg).pages, P q :=
  ⟨p, by simp only [insertPage, List.mem_append]; exact Or.inl hp, h⟩

lemma updatePage_mech (ctx : Ctx) (db : Db) (pageData : Page) (user : Nat)
    (og gid : Option Nat) (db' : Db) (pg : Page)
    (hv5 : ctx.isV5Compatible = true)
    (hw : (decide (pageData.parent ≠ none) || isTopPage pageData.path) = true)
    (hgR : og.getD pageData.grant = GRANT_RESTRICTED)
    (hch : (db.pages.any fun p =>
      strStartsWith p.path (addTrailingSlash pageData.path)
        && decide (p.parent ≠ none)) = true)
    (hok : updatePage ctx db pageData user og gid = .ok (db', pg)) :
    pg.parent = none
    ∧ (∃ ep ∈ db'.pages, ep.id = db.nextId ∧ ep.path = pageData.path
        ∧ ep.isEmpty = true)
    ∧ ∀ q ∈ db.pages, q.parent = some pageData.id → q.id ≠ pageData.id →
      ∃ q' ∈ db'.pages, q'.id = q.id ∧ q'.parent = some db.nextId := by
  simp only [updatePage] at hok
  by_cases hv4 : shouldUseUpdatePageV4 pageData.grant ctx.isV5Compatible
      (decide (pageData.parent ≠ none) || isTopPage pageData.path) = true
  · rw [shouldUseUpdatePageV4, hv5] at hv4
    rw [hw] at hv4
    simp only [Bool.not_true, Bool.or_self, Bool.and_false] at hv4
    cases hv4
  · rw [if_neg hv4] at hok
    revert hok
    generalize hGG : (match gid with
      | some g => some g
      | none => pageData.grantedGroup : Option Nat) = GG
    generalize hGU : (if pageData.grantedUsers.isEmpty = true then [user]
      else pageData.grantedUsers) = GU
    intro hok
    split at hok
    · cases hok
    · rename_i db1 newParent newDescCount hbr
      split at hok
      · cases hok
      · rename_i db4 hcs
        injection hok with h
        rw [Prod.mk.injEq] at h
        obtain ⟨rfl, rfl⟩ := h
        rw [if_neg (by rw [hgR]; exact fun hcontra => hcontra rfl)] at hbr
        rw [if_pos (by rw [hw, hch]; rfl)] at hbr
        simp only [createEmptyPage] at hbr
        split at hbr
        · cases hbr
        · rename_i d1 hd1
          injection hbr with h2
          simp only [Prod.mk.injEq] at h2
          obtain ⟨h2a, h2b, h2c⟩ := h2
          subst h2a
          subst h2b
          subst h2c
          split at hd1
          · cases hd1
          · rename_i dE pgE hpd
            injection hd1 with h3
            subst h3
            split at hpd
            · cases hpd
            · rename_i pid hpar
              injection hpd with h4
              rw [Prod.mk.injEq] at h4
              obtain ⟨h4a, h4b⟩ := h4
              subst h4a
              subst h4b
              have hrem : ((decide (pageData.parent ≠ none)
                    || isTopPage pageData.path)
                  && !db.pages.any fun p =>
                    strStartsWith p.path (addTrailingSlash pageData.path)
                      && decide (p.parent ≠ none)) = false := by
                rw [hw, hch]
                rfl
              simp only [hrem, Bool.false_eq_true, if_false]
              have hc1' : (!(decide (pageData.parent ≠ none)
                    || isTopPage pageData.path)
                  && decide (og.getD pageData.grant ≠ GRANT_RESTRICTED))
                  = false := by
                rw [hw]
                rfl
              simp only [hc1', Bool.false_eq_true, if_false] at hcs
              have hc2 : ((decide (pageData.parent ≠ none)
                    || isTopPage pageData.path)
                  && !decide (og.getD pageData.grant ≠ GRANT_RESTRICTED))
                  = true := by
                rw [hw, hgR]
                rfl
              simp only [hc2, reduceIte] at hcs
              rw [if_pos (by
                rw [applyScope_grant]
                simp only [Option.getD_some]
                exact hgR)] at hcs
              simp only [updateDescendantCountOfAncestors] at hcs
              split at hcs
              · cases hcs
              · rename_i ancestors hanc
                injection hcs with h5
                subst h5
                refine ⟨?_, ?_, ?_⟩
                · rw [applyScope_parent]
                · simp only [incrementDescendantCountOfPageIds]
                  apply exists_P_updateWhere
                  apply exists_P_updateById
                  apply exists_P_updateWhere
                  refine exists_P_insertPage_new _ _ _ ?_
                  simp [applyScope]
                · intro q hq hqpar hqid
                  simp only [incrementDescendantCountOfPageIds]
                  apply exists_P_updateWhere
                  apply exists_P_updateById
                  apply exists_P_updateWhere
                  refine exists_P_insertPage_old _ _ _ q hq ?_
                  constructor
                  · intro _
                    constructor
                    · intro hcontra
                      exfalso
                      simp only at hcontra
                      exact hqid hcontra
                    · intro _
                      exact ⟨fun _ => ⟨rfl, rfl⟩, fun _ => ⟨rfl, rfl⟩⟩
                  · intro hcf
                    exfalso
                    rw [hqpar] at hcf
                    simp at hcf


/-- C1: RESTRICTED pages are always tree roots.  `create` preserves the
invariant and a page created with requested grant RESTRICTED is saved with
`parent = null`; v5 `updatePage` preserves the invariant and a page whose
effective grant is RESTRICTED is saved with `parent = null`; moreover, when
the updated page was on the tree and has children, a fresh empty page is
created at the original path and every child is re-parented onto it. -/
theorem restrictedPages_always_roots (ctx : Ctx) (db : Db) (user : Nat)
    (path : String) (og1 gg1 : Option Nat) (pageData : Page)
    (og2 gid2 : Option Nat)
    (hv : ValidDb db) (hinv : RestrictedRootInv db) :
    (∀ db' pg, create ctx db path user og1 gg1 = .ok (db', pg) →
      RestrictedRootInv db'
      ∧ (pg.grant = GRANT_RESTRICTED → pg.parent = none)
      ∧ (og1 = some GRANT_RESTRICTED → pg.parent = none))
    ∧ (ctx.isV5Compatible = true → pageData ∈ db.pages →
      ∀ db' pg, updatePage ctx db pageData user og2 gid2 = .ok (db', pg) →
        RestrictedRootInv db'
        ∧ (pg.grant = GRANT_RESTRICTED → pg.parent = none))
    ∧ (ctx.isV5Compatible = true →
      (decide (pageData.parent ≠ none) || isTopPage pageData.path) = true →
      og2.getD pageData.grant = GRANT_RESTRICTED →
      (db.pages.any fun p => strStartsWith p.path (addTrailingSlash pageData.path)
        && decide (p.parent ≠ none)) = true →
      ∀ db' pg, updatePage ctx db pageData user og2 gid2 = .ok (db', pg) →
        pg.parent = none
        ∧ (∃ ep ∈ db'.pages, ep.id = db.nextId ∧ ep.path = pageData.path
            ∧ ep.isEmpty = true)
        ∧ ∀ q ∈ db.pages, q.parent = some pageData.id → q.id ≠ pageData.id →
          ∃ q' ∈ db'.pages, q'.id = q.id ∧ q'.parent = some db.nextId) := by
  refine ⟨?_, ?_, ?_⟩
  · intro db' pg hok
    exact create_inv ctx db path user og1 gg1 db' pg hv hinv hok
  · intro hv5 hmem db' pg hok
    exact updatePage_inv ctx db pageData user og2 gid2 db' pg hv5 hv hinv
      hmem hok
  · intro hv5 hw hgR hch db' pg hok
    exact updatePage_mech ctx db pageData user og2 gid2 db' pg hv5 hw hgR
      hch hok

/-- C1 witness: the theorem applied to the sample store, requesting grant
RESTRICTED for both the created page `/r` and the update of `/a`. -/
theorem restrictedPages_always_roots_witness :
    (∀ db' pg, create ctxAllow c1Db "/r" 9 (some GRANT_RESTRICTED) none
        = .ok (db', pg) →
      RestrictedRootInv db'
      ∧ (pg.grant = GRANT_RESTRICTED → pg.parent = none)
      ∧ (some GRANT_RESTRICTED = some GRANT_RESTRICTED → pg.parent = none))
    ∧ (ctxAllow.isV5Compatible = true → c1PageA ∈ c1Db.pages →
      ∀ db' pg, updatePage ctxAllow c1Db c1PageA 9 (some GRANT_RESTRICTED) none
          = .ok (db', pg) →
        RestrictedRootInv db'
        ∧ (pg.grant = GRANT_RESTRICTED → pg.parent = none))
    ∧ (ctxAllow.isV5Compatible = true →
      (decide (c1PageA.parent ≠ none) || isTopPage c1PageA.path) = true →
      (some GRANT_RESTRICTED : Option Nat).getD c1PageA.grant
        = GRANT_RESTRICTED →
      (c1Db.pages.any fun p =>
        strStartsWith p.path (addTrailingSlash c1PageA.path)
          && decide (p.parent ≠ none)) = true →
      ∀ db' pg, updatePage ctxAllow c1Db c1PageA 9 (some GRANT_RESTRICTED) none
          = .ok (db', pg) →
        pg.parent = none
        ∧ (∃ ep ∈ db'.pages, ep.id = c1Db.nextId ∧ ep.path = c1PageA.path
            ∧ ep.isEmpty = true)
        ∧ ∀ q ∈ c1Db.pages, q.parent = some c1PageA.id → q.id ≠ c1PageA.id →
          ∃ q' ∈ db'.pages, q'.id = q.id ∧ q'.parent = some c1Db.nextId) :=
  restrictedPages_always_roots ctxAllow c1Db 9 "/r" (some GRANT_RESTRICTED)
    none c1PageA (some GRANT_RESTRICTED) none
    (by unfold ValidDb; decide) (by unfold RestrictedRootInv; decide)
